import Mathlib

/-!
Verification of the planning-graph core of the `plan-migration` repository
(`src/dependencies/dependency_tree.py` and `src/dependencies/dependency_reporting.py`),
as a shallow embedding in Lean 4.

Modelling conventions:
* Python `dict`s (insertion ordered, unique keys, assignment replaces the value
  in place and appends unknown keys) are association lists `List (String × α)`
  manipulated through `upsert` / `updateAll` / `mkDict` / `lookupD`.
* Fallible Python code (`KeyError` from unchecked indexing, `IndexError` from
  an empty igraph vertex selection) is modelled with `Except String`.
* The polars `DataFrame.unique()` row deduplication is `pyDedup` (first
  occurrence kept; polars does not guarantee an order, the registries built
  from the rows are keyed dictionaries so no claim depends on it).
* `source_systems` is modelled as a non-null `String`: the importer
  (`src/importers/products.py`) splits the pipe-delimited column, explodes and
  strips it before the core sees it, and spec §6 presents the records as
  non-null; the `is_not_null` filter of `_add_sources` is then the identity.
* `ig.Graph.DictList` copies the attribute values of the vertex dictionaries
  into the graph's own attribute storage, so mutating a vertex attribute of a
  built graph never writes back into the registry dictionaries; the embedding
  reflects this by building a fresh `Graph` value from the registry state.
* A `Task.status` of `none` models the `status` key being absent from the task
  dictionary (fresh template expansions have no such key), `some none` models a
  present null value, and `some (some s)` a present string `s`.  On graph
  vertices igraph flattens a missing attribute to `None`, hence `Option.join`.
-/

namespace PlanMigration

/-- VertexType enum of `dependency_tree.py` (compared via `.name` strings). -/
inductive VertexType where
  | SOURCE
  | PRODUCT
  | TASK
deriving DecidableEq, Repr

/-- EdgeType enum of `dependency_tree.py` (compared via `.name` strings). -/
inductive EdgeType where
  | SOURCE_TASK
  | PRODUCT_TASK
  | SOURCE_PRODUCT
  | TASK_DEPENDENCY
deriving DecidableEq, Repr

/-- An edge dictionary: every edge built by the code has exactly the keys
`source`, `target` and `type`, so the dictionary IS the (source, target, kind)
triple and the sorted-items dedup key of `_add_edges` coincides with it. -/
structure Edge where
  source : String
  target : String
  type : EdgeType
deriving DecidableEq, Repr

/-- A task template record as loaded from the template JSON (spec §6). -/
structure TemplateTask where
  id_task : String
  type_task : String
  description : String
  depends_on : List String
deriving DecidableEq, Repr

/-- A concrete task dictionary as produced by `_fill_task_template` and stored
by `_add_tasks` (the `name` key always equals `id_task` and the `type` key is
the constant `TASK`, so neither is materialised as a field). -/
structure Task where
  id_task : String
  type_task : String
  description : String
  depends_on : List String
  related_to : String
  worked_on : String
  status : Option (Option String) := none
deriving DecidableEq, Repr

/-- A source registry record (`_add_sources`); the constant keys
`task_type = "SOURCE"` and `type = SOURCE` are not materialised. -/
structure SourceRec where
  name : String
deriving DecidableEq, Repr

/-- A product registry record (`_add_products`); the constant key
`type = PRODUCT` is not materialised. -/
structure ProductRec where
  name : String
  name_product : String
  status : Option String
deriving DecidableEq, Repr

/-- One exploded product-source row handed to `add_product_sources`
(spec §6: one row per (source, product) pair). -/
structure PSRecord where
  source_systems : String
  id_product : String
  name_product : String
  status : Option String
deriving DecidableEq, Repr

/-- One task-status row handed to `add_task_statuses`. -/
structure TaskStatusRec where
  task : String
  status : Option String
deriving DecidableEq, Repr

/-- Python dictionary membership test on an association list. -/
def hasKey {α : Type} : List (String × α) → String → Bool
  | [], _ => false
  | kv :: rest, k => if kv.1 = k then true else hasKey rest k

/-- Python dictionary read `d[k]` on an association list. -/
def lookupD {α : Type} : List (String × α) → String → Option α
  | [], _ => none
  | kv :: rest, k => if kv.1 = k then some kv.2 else lookupD rest k

/-- Python dictionary assignment `d[k] = v`: replaces the value in place when
the key exists, appends otherwise (insertion order preserved). -/
def upsert {α : Type} (d : List (String × α)) (k : String) (v : α) : List (String × α) :=
  if hasKey d k then d.map (fun kv => if kv.1 = k then (k, v) else kv) else d ++ [(k, v)]

/-- Python `d.update(pairs)` / repeated assignment in insertion order. -/
def updateAll {α : Type} (d : List (String × α)) (pairs : List (String × α)) :
    List (String × α) :=
  pairs.foldl (fun acc kv => upsert acc kv.1 kv.2) d

/-- A Python dict comprehension over `pairs` (duplicate keys: last value wins,
first position kept). -/
def mkDict {α : Type} (pairs : List (String × α)) : List (String × α) :=
  updateAll [] pairs

/-- One iteration of the duplicate-removal loop of `_add_edges`: append the
element unless it was already seen (the `seen` set is exactly the content of
the accumulated `unique` list, the dictionaries being their key triples). -/
def dedupStep {α : Type} [DecidableEq α] (acc : List α) (x : α) : List α :=
  if x ∈ acc then acc else acc ++ [x]

/-- The duplicate-removal loop of `_add_edges` (and the row set semantics of
polars `unique()`): keep the first occurrence of every element. -/
def pyDedup {α : Type} [DecidableEq α] (l : List α) : List α :=
  l.foldl dedupStep []

/-- The key list of an association-list dictionary. -/
def keysD {α : Type} (d : List (String × α)) : List String :=
  d.map Prod.fst

/-- The value the last occurrence of a key in a pair list would leave in a
dictionary built from it. -/
def lastVal {α : Type} (ps : List (String × α)) (k : String) : Option α :=
  lookupD ps.reverse k

/-- The `PlanningTree` state: registries, edge list and the template loaded by
`__init__`. -/
structure PlanningTree where
  sources : List (String × SourceRec)
  products : List (String × ProductRec)
  tasks : List (String × Task)
  edges : List Edge
  template_tasks : List TemplateTask
deriving DecidableEq, Repr

/-- Embeds `PlanningTree.__init__`: empty registries and edge list; the template JSON
is stored as parsed, without any validation of its `depends_on` references. -/
def initTree (template : List TemplateTask) : PlanningTree :=
  { sources := [], products := [], tasks := [], edges := [], template_tasks := template }

/-- Embeds `PlanningTree._add_edges`: extend the edge list, then rebuild it keeping
the first occurrence of every (source, target, kind) triple. -/
def _add_edges (t : PlanningTree) (new : List Edge) : PlanningTree :=
  { t with edges := pyDedup (t.edges ++ new) }

/-- Embeds `PlanningTree._add_sources`: replace the source registry with the distinct
source names of the DataFrame. -/
def _add_sources (t : PlanningTree) (df : List PSRecord) : PlanningTree :=
  { t with sources := mkDict ((pyDedup (df.map PSRecord.source_systems)).map
      (fun n => (n, SourceRec.mk n))) }

/-- Embeds `PlanningTree._add_products`: replace the product registry with the
distinct (id, name, status) rows of the DataFrame, keyed by product id. -/
def _add_products (t : PlanningTree) (df : List PSRecord) : PlanningTree :=
  { t with products := mkDict ((pyDedup (df.map
      (fun r => (r.id_product, r.name_product, r.status)))).map
      (fun x => (x.1, ProductRec.mk x.1 x.2.1 x.2.2))) }

/-- Embeds `PlanningTree._add_edges_source_product`: the distinct (source, product)
pairs of the DataFrame as SOURCE_PRODUCT edges (also the pairing list that
drives template instantiation). -/
def _add_edges_source_product (df : List PSRecord) : List Edge :=
  (pyDedup (df.map (fun r => (r.source_systems, r.id_product)))).map
    (fun p => Edge.mk p.1 p.2 EdgeType.SOURCE_PRODUCT)

/-- First pass of `_fill_task_template`: the template-local id to concrete id
mapping, `concrete = (source name | product id) + "_" + template id`. -/
def buildIdMapping (template : List TemplateTask) (id_source id_product : String) :
    List (String × String) :=
  template.foldl
    (fun m tt =>
      upsert m tt.id_task
        ((if tt.type_task = "SOURCE" then id_source else id_product) ++ "_" ++ tt.id_task))
    []

/-- The list comprehension `[id_mapping[dep] for dep in depends_on]`: rewrite
every dependency through the mapping, raising `KeyError` at the first unknown
reference. -/
def mapDeps (m : List (String × String)) : List String → Except String (List String)
  | [] => Except.ok []
  | d :: rest =>
    match lookupD m d with
    | none => Except.error ("KeyError: " ++ d)
    | some v =>
      match mapDeps m rest with
      | Except.error e => Except.error e
      | Except.ok vs => Except.ok (v :: vs)

/-- Second pass of `_fill_task_template` for one template task: rewrite the id
and every `depends_on` entry through the mapping (an unknown reference is a
`KeyError`), set `related_to` to the product's display name for PRODUCT tasks
(a missing product is a `KeyError`) and `worked_on` to the pairing member. -/
def fillOne (products : List (String × ProductRec)) (id_source id_product : String)
    (m : List (String × String)) (tt : TemplateTask) : Except String Task :=
  match lookupD m tt.id_task with
  | none => Except.error ("KeyError: " ++ tt.id_task)
  | some new_id =>
    match (if tt.type_task = "PRODUCT" then
        match lookupD products id_product with
        | some p => Except.ok p.name_product
        | none => Except.error ("KeyError: " ++ id_product)
      else Except.ok "") with
    | Except.error e => Except.error e
    | Except.ok related =>
      match mapDeps m tt.depends_on with
      | Except.error e => Except.error e
      | Except.ok deps =>
        Except.ok
          { id_task := new_id
            type_task := tt.type_task
            description := tt.description
            depends_on := deps
            related_to := related
            worked_on := if tt.type_task = "SOURCE" then id_source else id_product
            status := none }

/-- The second-pass loop of `_fill_task_template` over the template list,
appending the rewritten tasks in order (the first `KeyError` aborts). -/
def fillAll (products : List (String × ProductRec)) (id_source id_product : String)
    (m : List (String × String)) : List TemplateTask → Except String (List Task)
  | [] => Except.ok []
  | tt :: rest =>
    match fillOne products id_source id_product m tt with
    | Except.error e => Except.error e
    | Except.ok tk =>
      match fillAll products id_source id_product m rest with
      | Except.error e => Except.error e
      | Except.ok tks => Except.ok (tk :: tks)

/-- Embeds `PlanningTree._fill_task_template`. -/
def _fill_task_template (t : PlanningTree) (id_source id_product : String) :
    Except String (List Task) :=
  fillAll t.products id_source id_product
    (buildIdMapping t.template_tasks id_source id_product) t.template_tasks

/-- The SOURCE_TASK edge batch of `_add_edges_source_tasks`: an edge from the
source to every SOURCE-subtype task. -/
def sourceTaskEdges (id_source : String) (tasks : List Task) : List Edge :=
  (tasks.filter (fun tk => tk.type_task = "SOURCE")).map
    (fun tk => Edge.mk id_source tk.id_task EdgeType.SOURCE_TASK)

/-- The PRODUCT_TASK edge batch of `_add_edges_product_tasks`: an edge from
every PRODUCT-subtype task to the product. -/
def productTaskEdges (id_product : String) (tasks : List Task) : List Edge :=
  (tasks.filter (fun tk => tk.type_task = "PRODUCT")).map
    (fun tk => Edge.mk tk.id_task id_product EdgeType.PRODUCT_TASK)

/-- Embeds `PlanningTree._add_edges_source_tasks`. -/
def _add_edges_source_tasks (t : PlanningTree) (id_source : String) (tasks : List Task) :
    PlanningTree :=
  _add_edges t (sourceTaskEdges id_source tasks)

/-- Embeds `PlanningTree._add_edges_product_tasks`. -/
def _add_edges_product_tasks (t : PlanningTree) (id_product : String) (tasks : List Task) :
    PlanningTree :=
  _add_edges t (productTaskEdges id_product tasks)

/-- Embeds `PlanningTree._add_tasks`: merge the freshly expanded task records into the
task registry, keyed by their id (`dict.update`: an existing record for the
same id is silently replaced). -/
def _add_tasks (t : PlanningTree) (tasks : List Task) : PlanningTree :=
  { t with tasks := updateAll t.tasks (tasks.map (fun tk => (tk.id_task, tk))) }

/-- Embeds `PlanningTree._extract_dependencies`: a TASK_DEPENDENCY edge from every
`depends_on` entry to the depending task. -/
def _extract_dependencies (tasks : List Task) : List Edge :=
  tasks.flatMap (fun tk =>
    tk.depends_on.map (fun d => Edge.mk d tk.id_task EdgeType.TASK_DEPENDENCY))

/-- Application of one pairing's successfully expanded tasks, in the order of
the loop body of `add_product_sources`: source-task edges, product-task edges,
task registry update, dependency edges. -/
def applyPairing (t : PlanningTree) (id_source id_product : String) (tasks : List Task) :
    PlanningTree :=
  _add_edges
    (_add_tasks
      (_add_edges_product_tasks
        (_add_edges_source_tasks t id_source tasks) id_product tasks) tasks)
    (_extract_dependencies tasks)

/-- The per-pairing body of the loop in `add_product_sources`. -/
def pairingStep (t : PlanningTree) (e : Edge) : Except String PlanningTree :=
  match _fill_task_template t e.source e.target with
  | Except.error err => Except.error err
  | Except.ok tasks => Except.ok (applyPairing t e.source e.target tasks)

/-- The `for edge in edges` loop of `add_product_sources`. -/
def pairingLoop (t : PlanningTree) : List Edge → Except String PlanningTree
  | [] => Except.ok t
  | e :: rest =>
    match pairingStep t e with
    | Except.error err => Except.error err
    | Except.ok t' => pairingLoop t' rest

/-- Embeds `_fill_task_template` as a function of the only state components it
reads: the product registry and the template. -/
def fillP (prods : List (String × ProductRec)) (tmpl : List TemplateTask)
    (id_source id_product : String) : Except String (List Task) :=
  fillAll prods id_source id_product (buildIdMapping tmpl id_source id_product) tmpl

/-- The pairing loop of `add_product_sources` with the expansions already
computed: applies each pairing's batch in order (used to reason about the
loop, whose expansions depend only on the loop-invariant product registry and
template). -/
def applyBatches : PlanningTree → List (Edge × List Task) → PlanningTree
  | t, [] => t
  | t, (e, l) :: rest => applyBatches (applyPairing t e.source e.target l) rest

/-- All edges one pairing application proposes. -/
def pairingEdges (e : Edge) (l : List Task) : List Edge :=
  sourceTaskEdges e.source l ++ productTaskEdges e.target l ++ _extract_dependencies l

/-- Embeds `PlanningTree.add_product_sources`: replace the source and product
registries from the DataFrame, add the SOURCE_PRODUCT edges, then instantiate
the template once per (source, product) pairing. -/
def add_product_sources (t : PlanningTree) (df : List PSRecord) :
    Except String PlanningTree :=
  let t1 := _add_sources t df
  let t2 := _add_products t1 df
  let pairs := _add_edges_source_product df
  let t3 := _add_edges t2 pairs
  pairingLoop t3 pairs

/-- One iteration of the loop in `add_task_statuses`:
`self.tasks[task]["status"] = status`, a `KeyError` when the id is unknown. -/
def setTaskStatus (t : PlanningTree) (r : TaskStatusRec) : Except String PlanningTree :=
  if hasKey t.tasks r.task then
    Except.ok { t with tasks := t.tasks.map (fun kv =>
      if kv.1 = r.task then (kv.1, { kv.2 with status := some r.status }) else kv) }
  else Except.error ("KeyError: " ++ r.task)

/-- Embeds `PlanningTree.add_task_statuses`: the `for task_status in task_statuses`
loop, aborting at the first unknown task id. -/
def add_task_statuses (t : PlanningTree) : List TaskStatusRec → Except String PlanningTree
  | [] => Except.ok t
  | r :: rest =>
    match setTaskStatus t r with
    | Except.error err => Except.error err
    | Except.ok t' => add_task_statuses t' rest

/-- A vertex of a built igraph graph.  Only the attributes read by the
operations modelled here are materialised: `name`, `type` (as `vtype`),
`type_task` (absent on sources and products) and `status` (absent attributes
are flattened to `None` by igraph, hence the `Option`s). -/
structure Vertex where
  name : String
  vtype : VertexType
  type_task : Option String
  status : Option String
deriving DecidableEq, Repr

/-- A built graph: vertex dictionaries plus name-referenced directed edges. -/
structure Graph where
  vertices : List Vertex
  edges : List Edge
deriving DecidableEq, Repr

/-- The graph vertex built from a task registry record. -/
def taskVertex (tk : Task) : Vertex :=
  { name := tk.id_task, vtype := VertexType.TASK, type_task := some tk.type_task,
    status := tk.status.join }

/-- Embeds `PlanningTree.get_product_source_tasks`: all sources, products and tasks,
with every edge except the SOURCE_PRODUCT ones. -/
def get_product_source_tasks (t : PlanningTree) : Graph :=
  { vertices :=
      (t.sources.map (fun kv =>
        Vertex.mk kv.2.name VertexType.SOURCE none none))
      ++ (t.products.map (fun kv =>
        Vertex.mk kv.2.name VertexType.PRODUCT none kv.2.status))
      ++ (t.tasks.map (fun kv => taskVertex kv.2)),
    edges := t.edges.filter (fun e => e.type ≠ EdgeType.SOURCE_PRODUCT) }

/-- One expansion step of backward reachability: add the sources of all edges
whose target is already collected. -/
def reachInStep (g : Graph) (s : List String) : List String :=
  pyDedup (s ++ (g.edges.filter (fun e => e.target ∈ s)).map Edge.source)

/-- One expansion step of forward reachability: add the targets of all edges
whose source is already collected. -/
def reachOutStep (g : Graph) (s : List String) : List String :=
  pyDedup (s ++ (g.edges.filter (fun e => e.source ∈ s)).map Edge.target)

/-- Embeds `dag.subcomponent(v, mode="in")`: the names of all vertices from which
`name` is reachable (iterated to a fixpoint; each productive step adds a name
and at most `|V| + |E|` names can ever appear). -/
def reachIn (g : Graph) (name : String) : List String :=
  (reachInStep g)^[g.vertices.length + g.edges.length] [name]

/-- Embeds `dag.subcomponent(v, mode="out")`: the names of all vertices reachable
from `name`. -/
def reachOut (g : Graph) (name : String) : List String :=
  (reachOutStep g)^[g.vertices.length + g.edges.length] [name]

/-- Embeds `dag.delete_vertices` of everything outside `keep`: the induced subgraph
(igraph drops the edges incident to a deleted vertex). -/
def induceGraph (g : Graph) (keep : List String) : Graph :=
  { vertices := g.vertices.filter (fun v => v.name ∈ keep),
    edges := g.edges.filter (fun e => e.source ∈ keep ∧ e.target ∈ keep) }

/-- Embeds `PlanningTree.get_product_tasks`: the ancestors-of subgraph of a product.
`dag.vs.select(name=id_product)[0]` raises `IndexError` when no vertex has the
requested name. -/
def get_product_tasks (t : PlanningTree) (id_product : String) : Except String Graph :=
  let dag := get_product_source_tasks t
  if dag.vertices.any (fun v => v.name = id_product) then
    Except.ok (induceGraph dag (reachIn dag id_product))
  else Except.error ("IndexError: no vertex named " ++ id_product)

/-- Embeds `PlanningTree.get_source_tasks`: the descendants-of subgraph of a source,
with the same not-found behaviour. -/
def get_source_tasks (t : PlanningTree) (id_source : String) : Except String Graph :=
  let dag := get_product_source_tasks t
  if dag.vertices.any (fun v => v.name = id_source) then
    Except.ok (induceGraph dag (reachOut dag id_source))
  else Except.error ("IndexError: no vertex named " ++ id_source)

/-- The predecessor statuses gathered by `set_tasks_ready` for one vertex: the
`status` of every TASK-typed source of an edge into the vertex (one entry per
incoming edge, as `dag.predecessors` reports). -/
def predTaskStatuses (g : Graph) (name : String) : List (Option String) :=
  ((g.edges.filter (fun e => e.target = name)).filterMap
    (fun e => g.vertices.find? (fun v => decide (v.name = e.source)))).filterMap
    (fun v => if v.vtype = VertexType.TASK then some v.status else none)

/-- The promotion condition of `set_tasks_ready`: a TASK vertex with no status
whose TASK predecessor statuses are non-empty and all equal `"done"`. -/
def readyCheck (g : Graph) (v : Vertex) : Bool :=
  v.vtype = VertexType.TASK && v.status = none &&
    (!(predTaskStatuses g v.name).isEmpty &&
      (predTaskStatuses g v.name).all (fun s => s = some "done"))

/-- Embeds `PlanningTree.set_tasks_ready`: one pass; candidates are selected against
the unmutated graph (the Python code collects `lst_next_up` first and only
then writes), then their status is set to `"ready"` on the given graph. -/
def set_tasks_ready (g : Graph) : Graph :=
  { g with vertices := g.vertices.map (fun v =>
      if readyCheck g v then { v with status := some "ready" } else v) }

/-- One row of the exported task table; `status = none` means the exported
table has no status column at all. -/
structure TaskRow where
  id_task : String
  type_task : String
  description : String
  depends_on : List String
  related_to : String
  worked_on : String
  status : Option String
deriving DecidableEq, Repr

/-- The exported task table of `PlanningReport.get_tasks`. -/
structure TaskTable where
  hasStatusColumn : Bool
  rows : List TaskRow
deriving DecidableEq, Repr

/-- The row built for one task record: `pl.from_dicts` materialises a `status`
column only when some task dictionary has the key; when the column exists,
`fill_null` turns every null (absent key or null value) into `"waiting"`. -/
def taskRow (hasCol : Bool) (tk : Task) : TaskRow :=
  { id_task := tk.id_task, type_task := tk.type_task, description := tk.description,
    depends_on := tk.depends_on, related_to := tk.related_to, worked_on := tk.worked_on,
    status := if hasCol then some (tk.status.join.getD "waiting") else none }

/-- Embeds `PlanningReport.get_tasks`: one row per task registry entry. -/
def get_tasks (t : PlanningTree) : TaskTable :=
  let hasCol := t.tasks.any (fun kv => kv.2.status.isSome)
  { hasStatusColumn := hasCol, rows := t.tasks.map (fun kv => taskRow hasCol kv.2) }

/-! ### Concrete fixtures used by the claims -/

/-- The two-task template of spec §8: `A` (SOURCE), `B` (PRODUCT) depending
on `A`. -/
def tmplAB : List TemplateTask :=
  [⟨"A", "SOURCE", "extract", []⟩, ⟨"B", "PRODUCT", "build", ["A"]⟩]

/-- The single product-source row: source "SYS1" feeds product "P1". -/
def recSYS1P1 : PSRecord := ⟨"SYS1", "P1", "Product One", some "active"⟩

/-- The planning tree obtained by ingesting `recSYS1P1` into a fresh tree
loaded with `tmplAB` (verified below against `add_product_sources`). -/
def stC5 : PlanningTree :=
  { sources := [("SYS1", ⟨"SYS1"⟩)],
    products := [("P1", ⟨"P1", "Product One", some "active"⟩)],
    tasks := [("SYS1_A", ⟨"SYS1_A", "SOURCE", "extract", [], "", "SYS1", none⟩),
              ("P1_B", ⟨"P1_B", "PRODUCT", "build", ["SYS1_A"], "Product One", "P1", none⟩)],
    edges := [⟨"SYS1", "P1", EdgeType.SOURCE_PRODUCT⟩,
              ⟨"SYS1", "SYS1_A", EdgeType.SOURCE_TASK⟩,
              ⟨"P1_B", "P1", EdgeType.PRODUCT_TASK⟩,
              ⟨"SYS1_A", "P1_B", EdgeType.TASK_DEPENDENCY⟩],
    template_tasks := tmplAB }

/-- The tree `stC5` after the external status update marking `SYS1_A` "done"
(verified below against `add_task_statuses`). -/
def stC5done : PlanningTree :=
  { stC5 with tasks :=
      [("SYS1_A", ⟨"SYS1_A", "SOURCE", "extract", [], "", "SYS1", some (some "done")⟩),
       ("P1_B", ⟨"P1_B", "PRODUCT", "build", ["SYS1_A"], "Product One", "P1", none⟩)] }

/-- A template in which the SOURCE-subtype task `C` depends on the
PRODUCT-subtype task `B`. -/
def tmplC1 : List TemplateTask :=
  [⟨"A", "SOURCE", "extract", []⟩, ⟨"B", "PRODUCT", "build", ["A"]⟩,
   ⟨"C", "SOURCE", "verify", ["B"]⟩]

/-- A tree loaded with `tmplC1` whose product registry knows products "P1"
and "P2" (the state in which `_fill_task_template` runs for the two pairings
of one `add_product_sources` call over both products). -/
def stC1 : PlanningTree :=
  { sources := [],
    products := [("P1", ⟨"P1", "Product One", none⟩), ("P2", ⟨"P2", "Product Two", none⟩)],
    tasks := [], edges := [], template_tasks := tmplC1 }

/-- A template whose only task references the unknown dependency id "Z". -/
def tmplBad : List TemplateTask := [⟨"A", "SOURCE", "x", ["Z"]⟩]

/-- A tree loaded with `tmplAB` whose product registry knows "P1" and "P2". -/
def stAB2 : PlanningTree :=
  { sources := [],
    products := [("P1", ⟨"P1", "Product One", none⟩), ("P2", ⟨"P2", "Product Two", none⟩)],
    tasks := [], edges := [], template_tasks := tmplAB }

/-- The expansion of `tmplAB` for the pairing (S, P1) in `stAB2`. -/
def fillABP1 : List Task :=
  [Task.mk "S_A" "SOURCE" "extract" [] "" "S" none,
   Task.mk "P1_B" "PRODUCT" "build" ["S_A"] "Product One" "P1" none]

/-- The expansion of `tmplAB` for the pairing (S, P2) in `stAB2`. -/
def fillABP2 : List Task :=
  [Task.mk "S_A" "SOURCE" "extract" [] "" "S" none,
   Task.mk "P2_B" "PRODUCT" "build" ["S_A"] "Product Two" "P2" none]

/-- The three-task dependency chain of spec §8 as a built graph: task `A`
feeds `B` feeds `C`; only `A` is marked "done". -/
def chainG : Graph :=
  { vertices := [⟨"A", VertexType.TASK, some "SOURCE", some "done"⟩,
                 ⟨"B", VertexType.TASK, some "SOURCE", none⟩,
                 ⟨"C", VertexType.TASK, some "SOURCE", none⟩],
    edges := [⟨"A", "B", EdgeType.TASK_DEPENDENCY⟩, ⟨"B", "C", EdgeType.TASK_DEPENDENCY⟩] }

/-- An external status update applied directly to a graph snapshot (modelling
a rebuild of the snapshot after `add_task_statuses` changed the registry). -/
def statusWrite (g : Graph) (name : String) (s : Option String) : Graph :=
  { g with vertices := g.vertices.map (fun v => if v.name = name then { v with status := s } else v) }

/-- The per-name status of a graph (outer `none`: no vertex of that name). -/
def statusOf (g : Graph) (name : String) : Option (Option String) :=
  (g.vertices.find? (fun v => decide (v.name = name))).map Vertex.status

/-- Whether a fallible operation returned a result rather than an error. -/
def isOkE {β : Type} : Except String β → Bool
  | Except.ok _ => true
  | Except.error _ => false

/-- Spec-side wording of the claims' id formula: the concrete task id is
prefix + "_" + template task id, the prefix being the source name for a
SOURCE-subtype template task and the product id otherwise. -/
def concreteId (id_source id_product : String) (tt : TemplateTask) : String :=
  (if tt.type_task = "SOURCE" then id_source else id_product) ++ "_" ++ tt.id_task

/-- Spec-side wording of the readiness transition rule: the set of direct
TASK_DEPENDENCY predecessors of the vertex is non-empty and every predecessor
carries status "done". -/
def specAllDepsDone (g : Graph) (v : Vertex) : Prop :=
  (∃ e ∈ g.edges, e.type = EdgeType.TASK_DEPENDENCY ∧ e.target = v.name) ∧
  (∀ e ∈ g.edges, e.type = EdgeType.TASK_DEPENDENCY → e.target = v.name →
    ∀ u ∈ g.vertices, u.name = e.source → u.status = some "done")

instance (g : Graph) (v : Vertex) : Decidable (specAllDepsDone g v) := by
  unfold specAllDepsDone
  exact inferInstance

/-- Spec-side wording of one readiness pass: set exactly the TASK vertices
with unset status and a non-empty all-"done" TASK_DEPENDENCY predecessor set
to "ready", leaving every other vertex untouched. -/
def specReadyVerts (g : Graph) : List Vertex :=
  g.vertices.map (fun v =>
    if v.vtype = VertexType.TASK ∧ v.status = none ∧ specAllDepsDone g v then
      { v with status := some "ready" }
    else v)

/-- Graph well-formedness: vertex names are unique (igraph vertex selection by
name is then unambiguous). -/
def wfNames (g : Graph) : Prop :=
  (g.vertices.map Vertex.name).Nodup

/-- Graph well-formedness: every edge source names an existing vertex (igraph
cannot hold an edge with a dangling endpoint). -/
def wfEndpoints (g : Graph) : Prop :=
  ∀ e ∈ g.edges, ∃ u ∈ g.vertices, u.name = e.source

/-- Graph well-formedness: an edge into a TASK vertex comes from a TASK vertex
exactly when it is a TASK_DEPENDENCY edge (true of every graph the code
builds: SOURCE_TASK edges leave SOURCE vertices, PRODUCT_TASK edges end in
PRODUCT vertices). -/
def wfTaskTyping (g : Graph) : Prop :=
  ∀ e ∈ g.edges, ∀ u ∈ g.vertices, u.name = e.source →
    ∀ w ∈ g.vertices, w.name = e.target → w.vtype = VertexType.TASK →
      (u.vtype = VertexType.TASK ↔ e.type = EdgeType.TASK_DEPENDENCY)

instance (g : Graph) : Decidable (wfNames g) := by
  unfold wfNames
  exact inferInstance

instance (g : Graph) : Decidable (wfEndpoints g) := by
  unfold wfEndpoints
  exact inferInstance

instance (g : Graph) : Decidable (wfTaskTyping g) := by
  unfold wfTaskTyping
  exact inferInstance


/-! ### Association-list dictionary lemmas -/

theorem hasKey_iff {α : Type} (d : List (String × α)) (k : String) :
    hasKey d k = true ↔ k ∈ keysD d := by
  induction d with
  | nil => simp [hasKey, keysD]
  | cons kv rest ih =>
    simp only [hasKey, keysD, List.map_cons, List.mem_cons]
    by_cases h : kv.1 = k
    · simp [h]
    · rw [if_neg h, ih]
      constructor
      · exact fun hh => Or.inr hh
      · rintro (rfl | hh)
        · exact absurd rfl h
        · exact hh

theorem hasKey_eq_false_iff {α : Type} (d : List (String × α)) (k : String) :
    hasKey d k = false ↔ k ∉ keysD d := by
  rw [← hasKey_iff]
  cases h : hasKey d k <;> simp [h]

theorem lookupD_eq_none_iff {α : Type} (d : List (String × α)) (k : String) :
    lookupD d k = none ↔ k ∉ keysD d := by
  induction d with
  | nil => simp [lookupD, keysD]
  | cons kv rest ih =>
    simp only [lookupD, keysD, List.map_cons, List.mem_cons]
    by_cases h : kv.1 = k
    · simp [h]
    · rw [if_neg h, ih]
      constructor
      · intro hh hcon
        rcases hcon with rfl | hmem
        · exact h rfl
        · exact hh hmem
      · exact fun hh hmem => hh (Or.inr hmem)

theorem lookupD_append {α : Type} (l₁ l₂ : List (String × α)) (k : String) :
    lookupD (l₁ ++ l₂) k =
      (match lookupD l₁ k with
        | some v => some v
        | none => lookupD l₂ k) := by
  induction l₁ with
  | nil => simp [lookupD]
  | cons kv rest ih =>
    simp only [List.cons_append, lookupD]
    by_cases h : kv.1 = k
    · rw [if_pos h, if_pos h]
    · rw [if_neg h, if_neg h]
      exact ih

theorem keysD_upsert_of_mem {α : Type} (d : List (String × α)) (k : String) (v : α)
    (h : hasKey d k = true) : keysD (upsert d k v) = keysD d := by
  simp only [upsert, h, if_true, keysD, List.map_map]
  apply List.map_congr_left
  intro kv _
  by_cases hkv : kv.1 = k <;> simp [hkv]

theorem keysD_upsert_of_not_mem {α : Type} (d : List (String × α)) (k : String) (v : α)
    (h : hasKey d k = false) : keysD (upsert d k v) = keysD d ++ [k] := by
  simp [upsert, h, keysD]

theorem hasKey_upsert {α : Type} (d : List (String × α)) (k k' : String) (v : α) :
    hasKey (upsert d k v) k' = true ↔ (hasKey d k' = true ∨ k' = k) := by
  by_cases h : hasKey d k
  · rw [hasKey_iff, keysD_upsert_of_mem d k v h, ← hasKey_iff]
    constructor
    · exact fun hh => Or.inl hh
    · rintro (hh | rfl)
      · exact hh
      · rwa [hasKey_iff] at h ⊢
  · rw [hasKey_iff, keysD_upsert_of_not_mem d k v (by simpa using h), List.mem_append,
      ← hasKey_iff]
    simp

theorem lookupD_mapReplace {α : Type} (k : String) (v : α) :
    ∀ d : List (String × α), hasKey d k = true →
      lookupD (d.map (fun kv => if kv.1 = k then (k, v) else kv)) k = some v := by
  intro d
  induction d with
  | nil => intro h; simp [hasKey] at h
  | cons kv rest ih =>
    intro h
    by_cases hkv : kv.1 = k
    · simp [List.map_cons, hkv, lookupD]
    · rw [List.map_cons, if_neg hkv]
      simp only [lookupD]
      rw [if_neg hkv]
      exact ih (by simpa [hasKey, hkv] using h)

theorem lookupD_mapReplace_ne {α : Type} (k k' : String) (v : α) (h : k' ≠ k) :
    ∀ d : List (String × α),
      lookupD (d.map (fun kv => if kv.1 = k then (k, v) else kv)) k' = lookupD d k' := by
  intro d
  induction d with
  | nil => simp [lookupD]
  | cons kv rest ih =>
    by_cases hkv : kv.1 = k
    · rw [List.map_cons, if_pos hkv]
      simp only [lookupD]
      rw [if_neg (fun hh : k = k' => h hh.symm),
        if_neg (show ¬kv.1 = k' from fun hh => h (hh ▸ hkv)), ih]
    · rw [List.map_cons, if_neg hkv]
      simp only [lookupD]
      by_cases hkv' : kv.1 = k'
      · rw [if_pos hkv', if_pos hkv']
      · rw [if_neg hkv', if_neg hkv', ih]

theorem lookupD_upsert_self {α : Type} (d : List (String × α)) (k : String) (v : α) :
    lookupD (upsert d k v) k = some v := by
  unfold upsert
  by_cases h : hasKey d k = true
  · rw [if_pos h]
    exact lookupD_mapReplace k v d h
  · rw [if_neg h, lookupD_append,
      (lookupD_eq_none_iff d k).2 ((hasKey_eq_false_iff d k).1 (by simpa using h))]
    simp [lookupD]

theorem lookupD_upsert_ne {α : Type} (d : List (String × α)) (k k' : String) (v : α)
    (h : k' ≠ k) : lookupD (upsert d k v) k' = lookupD d k' := by
  unfold upsert
  by_cases hk : hasKey d k = true
  · rw [if_pos hk]
    exact lookupD_mapReplace_ne k k' v h d
  · rw [if_neg hk, lookupD_append]
    cases hres : lookupD d k' with
    | some w => simp
    | none =>
      have hne : ¬k = k' := fun hh => h hh.symm
      simp [lookupD, hne]

theorem lastVal_append {α : Type} (l₁ l₂ : List (String × α)) (k : String) :
    lastVal (l₁ ++ l₂) k =
      (match lastVal l₂ k with
        | some v => some v
        | none => lastVal l₁ k) := by
  simp only [lastVal, List.reverse_append, lookupD_append]

theorem lookupD_updateAll {α : Type} (ps : List (String × α)) :
    ∀ (d : List (String × α)) (k : String),
      lookupD (updateAll d ps) k =
        (match lastVal ps k with
          | some v => some v
          | none => lookupD d k) := by
  induction ps with
  | nil => intro d k; simp [updateAll, lastVal, lookupD]
  | cons p rest ih =>
    intro d k
    have hstep : updateAll d (p :: rest) = updateAll (upsert d p.1 p.2) rest := by
      simp [updateAll]
    have hsplit : lastVal (p :: rest) k =
        (match lastVal rest k with
          | some v => some v
          | none => lastVal [p] k) := by
      simpa using lastVal_append [p] rest k
    rw [hstep, ih (upsert d p.1 p.2) k, hsplit]
    cases hrest : lastVal rest k with
    | some v => rfl
    | none =>
      simp only
      by_cases hk : k = p.1
      · subst hk
        simp [lastVal, lookupD, lookupD_upsert_self]
      · rw [lookupD_upsert_ne d p.1 k p.2 hk]
        have hp : lastVal [p] k = none := by
          have hne : ¬p.1 = k := fun hh => hk hh.symm
          simp [lastVal, lookupD, hne]
        rw [hp]

theorem updateAll_append {α : Type} (d : List (String × α)) (ps qs : List (String × α)) :
    updateAll d (ps ++ qs) = updateAll (updateAll d ps) qs := by
  simp [updateAll, List.foldl_append]

theorem keysD_updateAll_of_subset {α : Type} (ps : List (String × α)) :
    ∀ d : List (String × α), (∀ p ∈ ps, hasKey d p.1 = true) →
      keysD (updateAll d ps) = keysD d := by
  induction ps with
  | nil => intro d _; simp [updateAll]
  | cons p rest ih =>
    intro d hsub
    have hp : hasKey d p.1 = true := hsub p (List.mem_cons_self p rest)
    have : updateAll d (p :: rest) = updateAll (upsert d p.1 p.2) rest := by
      simp [updateAll]
    rw [this, ih (upsert d p.1 p.2) ?_, keysD_upsert_of_mem d p.1 p.2 hp]
    intro q hq
    exact (hasKey_upsert d p.1 q.1 p.2).2 (Or.inl (hsub q (List.mem_cons_of_mem p hq)))

theorem hasKey_updateAll_of_base {α : Type} (ps : List (String × α)) :
    ∀ (d : List (String × α)) (k : String), hasKey d k = true →
      hasKey (updateAll d ps) k = true := by
  induction ps with
  | nil => intro d k h; simpa [updateAll] using h
  | cons p rest ih =>
    intro d k h
    have hstep : updateAll d (p :: rest) = updateAll (upsert d p.1 p.2) rest := by
      simp [updateAll]
    rw [hstep]
    exact ih _ k ((hasKey_upsert d p.1 k p.2).2 (Or.inl h))

theorem hasKey_updateAll_of_mem {α : Type} (ps : List (String × α)) :
    ∀ (d : List (String × α)) (k : String), (∃ p ∈ ps, p.1 = k) →
      hasKey (updateAll d ps) k = true := by
  induction ps with
  | nil => intro d k h; simp at h
  | cons p rest ih =>
    intro d k h
    have hstep : updateAll d (p :: rest) = updateAll (upsert d p.1 p.2) rest := by
      simp [updateAll]
    rw [hstep]
    rcases h with ⟨q, hq, hqk⟩
    rcases List.mem_cons.1 hq with rfl | hmem
    · subst hqk
      exact hasKey_updateAll_of_base rest _ q.1
        ((hasKey_upsert d q.1 q.1 q.2).2 (Or.inr rfl))
    · exact ih _ k ⟨q, hmem, hqk⟩

theorem keysD_nodup_upsert {α : Type} (d : List (String × α)) (k : String) (v : α)
    (h : (keysD d).Nodup) : (keysD (upsert d k v)).Nodup := by
  by_cases hk : hasKey d k
  · rwa [keysD_upsert_of_mem d k v hk]
  · rw [keysD_upsert_of_not_mem d k v (by simpa using hk)]
    have : k ∉ keysD d := (hasKey_eq_false_iff d k).1 (by simpa using hk)
    simp [List.nodup_append, h, this]

theorem keysD_nodup_updateAll {α : Type} (ps : List (String × α)) :
    ∀ d : List (String × α), (keysD d).Nodup → (keysD (updateAll d ps)).Nodup := by
  induction ps with
  | nil => intro d h; simpa [updateAll] using h
  | cons p rest ih =>
    intro d h
    have : updateAll d (p :: rest) = updateAll (upsert d p.1 p.2) rest := by
      simp [updateAll]
    rw [this]
    exact ih _ (keysD_nodup_upsert d p.1 p.2 h)

theorem assoc_ext {α : Type} :
    ∀ l₁ l₂ : List (String × α), (keysD l₁).Nodup → keysD l₁ = keysD l₂ →
      (∀ k, lookupD l₁ k = lookupD l₂ k) → l₁ = l₂ := by
  intro l₁
  induction l₁ with
  | nil =>
    intro l₂ _ hkeys _
    cases l₂ with
    | nil => rfl
    | cons q _ => simp [keysD] at hkeys
  | cons p rest ih =>
    intro l₂ hnd hkeys hlook
    cases l₂ with
    | nil => simp [keysD] at hkeys
    | cons q rest₂ =>
      have hkeys' : p.1 :: keysD rest = q.1 :: keysD rest₂ := hkeys
      have hpair : p.1 = q.1 ∧ keysD rest = keysD rest₂ := by
        rw [List.cons.injEq] at hkeys'
        exact hkeys'
      have hpq : p.1 = q.1 := hpair.1
      have htail : keysD rest = keysD rest₂ := hpair.2
      have hp := hlook p.1
      rw [show lookupD (p :: rest) p.1 = some p.2 by simp [lookupD]] at hp
      rw [show lookupD (q :: rest₂) p.1 = some q.2 by simp [lookupD, hpq.symm]] at hp
      have hval : p.2 = q.2 := by injection hp
      have h2 : (p.1 :: keysD rest).Nodup := hnd
      have hndtail : (keysD rest).Nodup := (List.nodup_cons.1 h2).2
      have hpnot : p.1 ∉ keysD rest := (List.nodup_cons.1 h2).1
      have htl : rest = rest₂ := by
        apply ih rest₂ hndtail htail
        intro k
        by_cases hk : k = p.1
        · subst hk
          rw [(lookupD_eq_none_iff rest p.1).2 hpnot,
            (lookupD_eq_none_iff rest₂ p.1).2 (htail ▸ hpnot)]
        · have hlk := hlook k
          have e1 : lookupD (p :: rest) k = lookupD rest k := by
            have hne : ¬p.1 = k := fun hh => hk hh.symm
            simp [lookupD, hne]
          have e2 : lookupD (q :: rest₂) k = lookupD rest₂ k := by
            have hne : ¬q.1 = k := fun hh => hk (hh.symm.trans hpq.symm)
            simp [lookupD, hne]
          rw [e1, e2] at hlk
          exact hlk
      have hpq2 : p = q := Prod.ext hpq hval
      rw [hpq2, htl]

/-! ### Dedup-loop lemmas -/

theorem mem_foldl_dedupStep {α : Type} [DecidableEq α] (l : List α) :
    ∀ (acc : List α) (x : α), x ∈ l.foldl dedupStep acc ↔ x ∈ acc ∨ x ∈ l := by
  induction l with
  | nil => intro acc x; simp
  | cons y rest ih =>
    intro acc x
    rw [List.foldl_cons]
    rw [ih (dedupStep acc y) x]
    unfold dedupStep
    by_cases hy : y ∈ acc
    · simp only [hy, if_true, List.mem_cons]
      constructor
      · rintro (h | h)
        · exact Or.inl h
        · exact Or.inr (Or.inr h)
      · rintro (h | rfl | h)
        · exact Or.inl h
        · exact Or.inl hy
        · exact Or.inr h
    · simp only [hy, if_false, List.mem_append, List.mem_singleton, List.mem_cons]
      tauto

theorem nodup_foldl_dedupStep {α : Type} [DecidableEq α] (l : List α) :
    ∀ acc : List α, acc.Nodup → (l.foldl dedupStep acc).Nodup := by
  induction l with
  | nil => intro acc h; simpa using h
  | cons y rest ih =>
    intro acc h
    rw [List.foldl_cons]
    apply ih
    unfold dedupStep
    by_cases hy : y ∈ acc
    · simpa [hy] using h
    · simp [hy, List.nodup_append, h]

theorem foldl_dedupStep_of_subset {α : Type} [DecidableEq α] (l : List α) :
    ∀ acc : List α, (∀ x ∈ l, x ∈ acc) → l.foldl dedupStep acc = acc := by
  induction l with
  | nil => intro acc _; rfl
  | cons y rest ih =>
    intro acc hsub
    rw [List.foldl_cons]
    have hy : y ∈ acc := hsub y (List.mem_cons_self y rest)
    rw [show dedupStep acc y = acc by simp [dedupStep, hy]]
    exact ih acc (fun x hx => hsub x (List.mem_cons_of_mem y hx))

theorem foldl_dedupStep_of_disjoint {α : Type} [DecidableEq α] (l : List α) :
    ∀ acc : List α, l.Nodup → (∀ x ∈ l, x ∉ acc) → l.foldl dedupStep acc = acc ++ l := by
  induction l with
  | nil => intro acc _ _; simp
  | cons y rest ih =>
    intro acc hnd hdisj
    rw [List.foldl_cons]
    have hy : y ∉ acc := hdisj y (List.mem_cons_self y rest)
    rw [show dedupStep acc y = acc ++ [y] by simp [dedupStep, hy]]
    rw [ih (acc ++ [y]) (List.nodup_cons.1 hnd).2 ?_]
    · simp
    · intro x hx
      simp only [List.mem_append, List.mem_singleton]
      rintro (h | rfl)
      · exact hdisj x (List.mem_cons_of_mem y hx) h
      · exact (List.nodup_cons.1 hnd).1 hx

theorem mem_pyDedup {α : Type} [DecidableEq α] (l : List α) (x : α) :
    x ∈ pyDedup l ↔ x ∈ l := by
  unfold pyDedup
  rw [mem_foldl_dedupStep]
  simp

theorem pyDedup_nodup {α : Type} [DecidableEq α] (l : List α) : (pyDedup l).Nodup :=
  nodup_foldl_dedupStep l [] List.nodup_nil

theorem pyDedup_eq_self {α : Type} [DecidableEq α] (l : List α) (h : l.Nodup) :
    pyDedup l = l := by
  unfold pyDedup
  simpa using foldl_dedupStep_of_disjoint l [] h (by simp)

theorem pyDedup_append_of_subset {α : Type} [DecidableEq α] (l₁ l₂ : List α)
    (h : ∀ x ∈ l₂, x ∈ l₁) : pyDedup (l₁ ++ l₂) = pyDedup l₁ := by
  unfold pyDedup
  rw [List.foldl_append]
  apply foldl_dedupStep_of_subset
  intro x hx
  rw [mem_foldl_dedupStep]
  exact Or.inr (h x hx)

theorem pyDedup_idem {α : Type} [DecidableEq α] (l : List α) :
    pyDedup (pyDedup l) = pyDedup l :=
  pyDedup_eq_self (pyDedup l) (pyDedup_nodup l)

/-! ### Claims -/

/-- C2: after any edge-addition call the edge collection has no two entries
equal on the (source, target, kind) triple (an `Edge` is exactly that triple);
re-proposing any already-present edges, in particular re-ingesting the same
source-product relationships, leaves the collection unchanged, so repetition
never grows the edge count. -/
theorem C2_edge_set_deduplicated :
    (∀ (t : PlanningTree) (new : List Edge), ((_add_edges t new).edges).Nodup) ∧
    (∀ (t : PlanningTree) (new : List Edge),
      _add_edges (_add_edges t new) new = _add_edges t new) ∧
    (∀ (t : PlanningTree) (new : List Edge), t.edges.Nodup → (∀ e ∈ new, e ∈ t.edges) →
      _add_edges t new = t) := by
  refine ⟨fun t new => pyDedup_nodup (t.edges ++ new), fun t new => ?_, fun t new hnd hsub => ?_⟩
  · show PlanningTree.mk t.sources t.products t.tasks
        (pyDedup (pyDedup (t.edges ++ new) ++ new)) t.template_tasks =
      PlanningTree.mk t.sources t.products t.tasks
        (pyDedup (t.edges ++ new)) t.template_tasks
    have hmem : ∀ e ∈ new, e ∈ pyDedup (t.edges ++ new) := fun e he =>
      (mem_pyDedup _ e).2 (List.mem_append_right t.edges he)
    rw [pyDedup_append_of_subset _ _ hmem, pyDedup_idem]
  · show PlanningTree.mk t.sources t.products t.tasks
        (pyDedup (t.edges ++ new)) t.template_tasks = t
    rw [pyDedup_append_of_subset t.edges new hsub, pyDedup_eq_self t.edges hnd]

/-- Witness for C2: re-proposing the already-present SOURCE_PRODUCT edge of
the concrete ingested tree leaves the tree unchanged. -/
theorem C2_edge_set_deduplicated_witness :
    stC5.edges.Nodup ∧
      _add_edges stC5 [Edge.mk "SYS1" "P1" EdgeType.SOURCE_PRODUCT] = stC5 :=
  ⟨by decide,
    C2_edge_set_deduplicated.2.2 stC5 [Edge.mk "SYS1" "P1" EdgeType.SOURCE_PRODUCT]
      (by decide) (by decide)⟩

/-- Applying one status row returns a tree with the very same task keys (only
a value is replaced in place). -/
theorem setTaskStatus_ok_keys (t : PlanningTree) (r : TaskStatusRec) (t' : PlanningTree)
    (h : setTaskStatus t r = Except.ok t') : keysD t'.tasks = keysD t.tasks := by
  unfold setTaskStatus at h
  by_cases hk : hasKey t.tasks r.task = true
  · rw [if_pos hk] at h
    injection h with h
    subst h
    show keysD (t.tasks.map _) = keysD t.tasks
    simp only [keysD, List.map_map]
    apply List.map_congr_left
    intro kv _
    by_cases hkv : kv.1 = r.task <;> simp [hkv]
  · rw [if_neg hk] at h
    cases h

/-- A status batch containing a row for an unknown task id always aborts with
an error. -/
theorem add_task_statuses_error_of_unknown :
    ∀ (recs : List TaskStatusRec) (t : PlanningTree) (r : TaskStatusRec),
      r ∈ recs → hasKey t.tasks r.task = false →
      isOkE (add_task_statuses t recs) = false := by
  intro recs
  induction recs with
  | nil => intro t r hr _; simp at hr
  | cons r0 rest ih =>
    intro t r hr hkey
    rcases List.mem_cons.1 hr with rfl | hmem
    · simp [add_task_statuses, setTaskStatus, hkey, isOkE]
    · cases hstep : setTaskStatus t r0 with
      | error msg => simp [add_task_statuses, hstep, isOkE]
      | ok t' =>
        have hkeys := setTaskStatus_ok_keys t r0 t' hstep
        have hkey' : hasKey t'.tasks r.task = false := by
          rw [hasKey_eq_false_iff] at hkey ⊢
          rw [hkeys]
          exact hkey
        simp only [add_task_statuses, hstep]
        exact ih t' r hmem hkey'

/-- C6: a status record naming an unknown task id makes `add_task_statuses`
fail (the `KeyError` of `self.tasks[task]`), and the ancestors-of and
descendants-of queries for a name absent from the graph fail with the
`IndexError` of the empty vertex selection — neither succeeds silently or
returns an empty graph. -/
theorem C6_not_found_surfaced :
    (∀ (t : PlanningTree) (recs : List TaskStatusRec) (r : TaskStatusRec),
      r ∈ recs → hasKey t.tasks r.task = false →
      isOkE (add_task_statuses t recs) = false) ∧
    (∀ (t : PlanningTree) (idp : String),
      (get_product_source_tasks t).vertices.any (fun v => decide (v.name = idp)) = false →
      get_product_tasks t idp = Except.error ("IndexError: no vertex named " ++ idp)) ∧
    (∀ (t : PlanningTree) (ids : String),
      (get_product_source_tasks t).vertices.any (fun v => decide (v.name = ids)) = false →
      get_source_tasks t ids = Except.error ("IndexError: no vertex named " ++ ids)) := by
  refine ⟨fun t recs r hr hk => add_task_statuses_error_of_unknown recs t r hr hk,
    fun t idp h => ?_, fun t ids h => ?_⟩
  · simp [get_product_tasks, h]
  · simp [get_source_tasks, h]

/-- Witness for C6 at the concrete ingested tree: the status update for
"bogus-id" errors and the ancestors-of query for "does-not-exist" errors. -/
theorem C6_not_found_surfaced_witness :
    hasKey stC5.tasks "bogus-id" = false ∧
    isOkE (add_task_statuses stC5 [TaskStatusRec.mk "bogus-id" (some "done")]) = false ∧
    get_product_tasks stC5 "does-not-exist" =
      Except.error "IndexError: no vertex named does-not-exist" :=
  ⟨by decide,
    C6_not_found_surfaced.1 stC5 [TaskStatusRec.mk "bogus-id" (some "done")]
      (TaskStatusRec.mk "bogus-id" (some "done")) (by decide) (by decide),
    C6_not_found_surfaced.2.1 stC5 "does-not-exist" (by decide)⟩

/-- The id mapping of the first pass is the dictionary of
(template id, concrete id) pairs in template order. -/
theorem buildIdMapping_eq (tmpl : List TemplateTask) (s p : String) :
    buildIdMapping tmpl s p = mkDict (tmpl.map (fun tt => (tt.id_task, concreteId s p tt))) := by
  simp [buildIdMapping, mkDict, updateAll, List.foldl_map, concreteId]

/-- A key present in an updated dictionary was present before or was written. -/
theorem hasKey_updateAll_cases {α : Type} (ps : List (String × α)) :
    ∀ (d : List (String × α)) (k : String), hasKey (updateAll d ps) k = true →
      hasKey d k = true ∨ ∃ p ∈ ps, p.1 = k := by
  induction ps with
  | nil => intro d k h; exact Or.inl (by simpa [updateAll] using h)
  | cons p rest ih =>
    intro d k h
    have hstep : updateAll d (p :: rest) = updateAll (upsert d p.1 p.2) rest := by
      simp [updateAll]
    rw [hstep] at h
    rcases ih _ k h with hup | ⟨q, hq, hqk⟩
    · rcases (hasKey_upsert d p.1 k p.2).1 hup with hd | rfl
      · exact Or.inl hd
      · exact Or.inr ⟨p, List.mem_cons_self p rest, rfl⟩
    · exact Or.inr ⟨q, List.mem_cons_of_mem p hq, hqk⟩

/-- Every dependency of a successfully rewritten dependency list resolves in
the mapping. -/
theorem mapDeps_ok_mem (m : List (String × String)) :
    ∀ (ds : List String) (vs : List String), mapDeps m ds = Except.ok vs →
      ∀ d ∈ ds, ∃ v, lookupD m d = some v := by
  intro ds
  induction ds with
  | nil => intro vs _ d hd; simp at hd
  | cons d0 rest ih =>
    intro vs h d hd
    unfold mapDeps at h
    cases hl : lookupD m d0 with
    | none => rw [hl] at h; cases h
    | some v0 =>
      rw [hl] at h
      cases hrest : mapDeps m rest with
      | error e => rw [hrest] at h; cases h
      | ok vs0 =>
        rcases List.mem_cons.1 hd with rfl | hmem
        · exact ⟨v0, hl⟩
        · exact ih vs0 hrest d hmem

/-- A successfully rewritten task resolved its own id and all dependencies. -/
theorem fillOne_ok_parts (products : List (String × ProductRec)) (s p : String)
    (m : List (String × String)) (tt : TemplateTask) (tk : Task)
    (h : fillOne products s p m tt = Except.ok tk) :
    (∃ nid, lookupD m tt.id_task = some nid) ∧
      (∃ ds, mapDeps m tt.depends_on = Except.ok ds) := by
  unfold fillOne at h
  cases hid : lookupD m tt.id_task with
  | none => rw [hid] at h; cases h
  | some nid =>
    rw [hid] at h
    cases hrel : (if tt.type_task = "PRODUCT" then
        match lookupD products p with
        | some pr => Except.ok pr.name_product
        | none => Except.error ("KeyError: " ++ p)
      else Except.ok "") with
    | error e => rw [hrel] at h; cases h
    | ok related =>
      rw [hrel] at h
      cases hdeps : mapDeps m tt.depends_on with
      | error e => rw [hdeps] at h; cases h
      | ok ds => exact ⟨⟨nid, rfl⟩, ⟨ds, rfl⟩⟩

/-- Every template task of a successfully expanded template was itself
successfully rewritten. -/
theorem fillAll_ok_mem (products : List (String × ProductRec)) (s p : String)
    (m : List (String × String)) :
    ∀ (l : List TemplateTask) (r : List Task), fillAll products s p m l = Except.ok r →
      ∀ tt ∈ l, ∃ tk, fillOne products s p m tt = Except.ok tk := by
  intro l
  induction l with
  | nil => intro r _ tt htt; simp at htt
  | cons t0 rest ih =>
    intro r h tt htt
    unfold fillAll at h
    cases h0 : fillOne products s p m t0 with
    | error e => rw [h0] at h; cases h
    | ok tk0 =>
      rw [h0] at h
      cases hrest : fillAll products s p m rest with
      | error e => rw [hrest] at h; cases h
      | ok tks =>
        rcases List.mem_cons.1 htt with rfl | hmem
        · exact ⟨tk0, h0⟩
        · exact ih tks hrest tt hmem

/-- Counterexample to C7 as stated: loading a template whose task `A` depends
on the unknown id "Z" performs no validation at all — `__init__` returns the
ordinary empty tree holding the bad template — and the configuration error
surfaces only later, as a `KeyError` at instantiation time. -/
theorem C7_counterexample :
    initTree tmplBad = PlanningTree.mk [] [] [] [] tmplBad ∧
    _fill_task_template (initTree tmplBad) "S" "P1" = Except.error "KeyError: Z" :=
  ⟨rfl, rfl⟩

/-- C7 (amended): a template dependency referencing an id not present among
the template's task ids is not checked at template-load time — `__init__`
stores the template as parsed — and instead surfaces as a `KeyError` failure
of `_fill_task_template` at instantiation time (it never passes silently). -/
theorem C7_amended_load_accepts_fill_fails :
    (∀ tmpl : List TemplateTask, initTree tmpl = PlanningTree.mk [] [] [] [] tmpl) ∧
    (∀ (t : PlanningTree) (s p : String),
      (∃ tt ∈ t.template_tasks, ∃ d ∈ tt.depends_on,
        ∀ tt2 ∈ t.template_tasks, tt2.id_task ≠ d) →
      isOkE (_fill_task_template t s p) = false) := by
  refine ⟨fun tmpl => rfl, fun t s p hbad => ?_⟩
  rcases hbad with ⟨tt, htt, d, hd, hnone⟩
  cases hfill : _fill_task_template t s p with
  | error e => rfl
  | ok r =>
    exfalso
    unfold _fill_task_template at hfill
    rcases fillAll_ok_mem t.products s p _ t.template_tasks r hfill tt htt with ⟨tk, hone⟩
    rcases (fillOne_ok_parts t.products s p _ tt tk hone).2 with ⟨ds, hdeps⟩
    rcases mapDeps_ok_mem _ tt.depends_on ds hdeps d hd with ⟨v, hv⟩
    have hkey : hasKey (buildIdMapping t.template_tasks s p) d = true := by
      rw [hasKey_iff]
      by_contra hcon
      rw [← lookupD_eq_none_iff] at hcon
      rw [hcon] at hv
      cases hv
    rw [buildIdMapping_eq] at hkey
    rcases hasKey_updateAll_cases _ [] d hkey with hbase | ⟨q, hq, hqk⟩
    · simp [hasKey] at hbase
    · rcases List.mem_map.1 hq with ⟨tt2, htt2, rfl⟩
      exact hnone tt2 htt2 hqk

/-- Witness for the amended C7 at the concrete bad template. -/
theorem C7_amended_witness :
    (∃ tt ∈ (initTree tmplBad).template_tasks, ∃ d ∈ tt.depends_on,
      ∀ tt2 ∈ (initTree tmplBad).template_tasks, tt2.id_task ≠ d) ∧
    isOkE (_fill_task_template (initTree tmplBad) "S" "P1") = false :=
  ⟨by decide, C7_amended_load_accepts_fill_fails.2 (initTree tmplBad) "S" "P1" (by decide)⟩

/-- Full inversion of a successful `fillOne`: the produced task is the
template task with its id and dependencies rewritten through the mapping, the
pairing member as `worked_on`, the product display name (or "") as
`related_to`, and no status key. -/
theorem fillOne_ok_inv (products : List (String × ProductRec)) (s p : String)
    (m : List (String × String)) (tt : TemplateTask) (tk : Task)
    (h : fillOne products s p m tt = Except.ok tk) :
    ∃ nid related ds, lookupD m tt.id_task = some nid ∧
      mapDeps m tt.depends_on = Except.ok ds ∧
      tk = Task.mk nid tt.type_task tt.description ds related
        (if tt.type_task = "SOURCE" then s else p) none ∧
      (tt.type_task = "PRODUCT" → ∃ pr, lookupD products p = some pr ∧
        related = pr.name_product) ∧
      (tt.type_task ≠ "PRODUCT" → related = "") := by
  unfold fillOne at h
  cases hid : lookupD m tt.id_task with
  | none => rw [hid] at h; cases h
  | some nid =>
    rw [hid] at h
    by_cases hprod : tt.type_task = "PRODUCT"
    · rw [if_pos hprod] at h
      cases hpr : lookupD products p with
      | none => rw [hpr] at h; cases h
      | some pr =>
        rw [hpr] at h
        cases hdeps : mapDeps m tt.depends_on with
        | error e => rw [hdeps] at h; cases h
        | ok ds =>
          rw [hdeps] at h
          injection h with h
          exact ⟨nid, pr.name_product, ds, rfl, rfl, h.symm,
            fun _ => ⟨pr, rfl, rfl⟩, fun hc => absurd hprod hc⟩
    · rw [if_neg hprod] at h
      cases hdeps : mapDeps m tt.depends_on with
      | error e => rw [hdeps] at h; cases h
      | ok ds =>
        rw [hdeps] at h
        injection h with h
        exact ⟨nid, "", ds, rfl, rfl, h.symm, fun hc => absurd hc hprod, fun _ => rfl⟩

/-- Counterexample to C8 as stated: after marking `SYS1_A` "done", re-ingesting
the very same pairing returns an ordinary success (no checked error condition)
and the stored record for `SYS1_A` is back to a fresh template expansion with
no status — the "done" status was silently reset. -/
theorem C8_counterexample :
    add_task_statuses stC5 [TaskStatusRec.mk "SYS1_A" (some "done")] = Except.ok stC5done ∧
    (lookupD stC5done.tasks "SYS1_A").map Task.status = some (some (some "done")) ∧
    add_product_sources stC5done [recSYS1P1] = Except.ok stC5 ∧
    (lookupD stC5.tasks "SYS1_A").map Task.status = some none :=
  ⟨rfl, rfl, rfl, rfl⟩

/-- C8 (amended): re-instantiating a task id whose status has been set is not
checked anywhere: `_add_tasks` silently replaces whatever record the registry
held for that id with the freshly expanded record (the last one expanded for
that id), and every record produced by template expansion carries no status
key — so a previously applied status is silently reset rather than reported. -/
theorem C8_amended_silent_overwrite :
    (∀ (t : PlanningTree) (tasks : List Task) (k : String) (tk : Task),
      lastVal (tasks.map (fun x => (x.id_task, x))) k = some tk →
      lookupD ((_add_tasks t tasks).tasks) k = some tk) ∧
    (∀ (products : List (String × ProductRec)) (s p : String)
      (m : List (String × String)) (tt : TemplateTask) (tk : Task),
      fillOne products s p m tt = Except.ok tk → tk.status = none) := by
  constructor
  · intro t tasks k tk hlast
    show lookupD (updateAll t.tasks (tasks.map (fun x => (x.id_task, x)))) k = some tk
    rw [lookupD_updateAll, hlast]
  · intro products s p m tt tk h
    rcases fillOne_ok_inv products s p m tt tk h with ⟨nid, related, ds, _, _, htk, _, _⟩
    rw [htk]

/-- Witness for the amended C8: overwriting the "done"-marked `SYS1_A` record
with a fresh expansion leaves exactly the fresh record in the registry. -/
theorem C8_amended_witness :
    lastVal ([Task.mk "SYS1_A" "SOURCE" "extract" [] "" "SYS1" none].map
      (fun x => (x.id_task, x))) "SYS1_A" =
        some (Task.mk "SYS1_A" "SOURCE" "extract" [] "" "SYS1" none) ∧
    lookupD ((_add_tasks stC5done
        [Task.mk "SYS1_A" "SOURCE" "extract" [] "" "SYS1" none]).tasks) "SYS1_A" =
      some (Task.mk "SYS1_A" "SOURCE" "extract" [] "" "SYS1" none) :=
  ⟨by decide, C8_amended_silent_overwrite.1 stC5done
    [Task.mk "SYS1_A" "SOURCE" "extract" [] "" "SYS1" none] "SYS1_A"
    (Task.mk "SYS1_A" "SOURCE" "extract" [] "" "SYS1" none) (by decide)⟩

/-- Membership in the predecessor-status list gathered by `set_tasks_ready`:
one entry per edge into the vertex whose resolved source vertex is a TASK. -/
theorem mem_predTaskStatuses (g : Graph) (n : String) (s : Option String) :
    s ∈ predTaskStatuses g n ↔
      ∃ e ∈ g.edges, e.target = n ∧
        ∃ u, g.vertices.find? (fun u => decide (u.name = e.source)) = some u ∧
          u.vtype = VertexType.TASK ∧ u.status = s := by
  unfold predTaskStatuses
  simp only [List.mem_filterMap, List.mem_filter, decide_eq_true_eq]
  constructor
  · rintro ⟨u, ⟨e, ⟨he, het⟩, hfind⟩, hif⟩
    by_cases hu : u.vtype = VertexType.TASK
    · rw [if_pos hu] at hif
      injection hif with hif
      exact ⟨e, he, het, u, hfind, hu, hif⟩
    · rw [if_neg hu] at hif
      cases hif
  · rintro ⟨e, he, het, u, hfind, hu, hus⟩
    exact ⟨u, ⟨e, ⟨he, het⟩, hfind⟩, by rw [if_pos hu, hus]⟩

/-- With unique vertex names, two vertices with the same name are the same
vertex. -/
theorem name_inj (g : Graph) (hn : wfNames g) :
    ∀ u ∈ g.vertices, ∀ w ∈ g.vertices, u.name = w.name → u = w :=
  fun _ hu _ hw huw => List.inj_on_of_nodup_map hn hu hw huw

/-- Under the well-formedness of the graphs the code builds, the
predecessor-status list of a TASK vertex is non-empty exactly when some
TASK_DEPENDENCY edge enters it. -/
theorem predTaskStatuses_nonempty_iff (g : Graph) (_hn : wfNames g) (he : wfEndpoints g)
    (ht : wfTaskTyping g) (v : Vertex) (hv : v ∈ g.vertices)
    (hvt : v.vtype = VertexType.TASK) :
    predTaskStatuses g v.name ≠ [] ↔
      ∃ e ∈ g.edges, e.type = EdgeType.TASK_DEPENDENCY ∧ e.target = v.name := by
  constructor
  · intro hne
    rcases List.exists_mem_of_ne_nil _ hne with ⟨s, hs⟩
    rcases (mem_predTaskStatuses g v.name s).1 hs with ⟨e, hee, het, u, hfind, hu, _⟩
    have humem : u ∈ g.vertices := List.mem_of_find?_eq_some hfind
    have hp := List.find?_some hfind
    have huname : u.name = e.source := of_decide_eq_true hp
    exact ⟨e, hee, (ht e hee u humem huname v hv het.symm hvt).1 hu, het⟩
  · rintro ⟨e, hee, hetd, het⟩
    rcases he e hee with ⟨u, humem, huname⟩
    have hfs : (g.vertices.find? (fun w => decide (w.name = e.source))).isSome := by
      rw [List.find?_isSome]
      exact ⟨u, humem, by rw [decide_eq_true_eq]; exact huname⟩
    rcases Option.isSome_iff_exists.1 hfs with ⟨u0, hfind⟩
    have hu0mem : u0 ∈ g.vertices := List.mem_of_find?_eq_some hfind
    have hp0 := List.find?_some hfind
    have hu0name : u0.name = e.source := of_decide_eq_true hp0
    have hu0task : u0.vtype = VertexType.TASK :=
      (ht e hee u0 hu0mem hu0name v hv het.symm hvt).2 hetd
    have : u0.status ∈ predTaskStatuses g v.name :=
      (mem_predTaskStatuses g v.name u0.status).2 ⟨e, hee, het, u0, hfind, hu0task, rfl⟩
    exact List.ne_nil_of_mem this

/-- Under the same well-formedness, "every gathered predecessor status equals
done" coincides with the spec's "every TASK_DEPENDENCY predecessor's status
equals done". -/
theorem predTaskStatuses_all_iff (g : Graph) (hn : wfNames g) (_he : wfEndpoints g)
    (ht : wfTaskTyping g) (v : Vertex) (hv : v ∈ g.vertices)
    (hvt : v.vtype = VertexType.TASK) :
    (∀ s ∈ predTaskStatuses g v.name, s = some "done") ↔
      (∀ e ∈ g.edges, e.type = EdgeType.TASK_DEPENDENCY → e.target = v.name →
        ∀ u ∈ g.vertices, u.name = e.source → u.status = some "done") := by
  constructor
  · intro hall e hee hetd het u humem huname
    have hfs : (g.vertices.find? (fun w => decide (w.name = e.source))).isSome := by
      rw [List.find?_isSome]
      exact ⟨u, humem, by rw [decide_eq_true_eq]; exact huname⟩
    rcases Option.isSome_iff_exists.1 hfs with ⟨u0, hfind⟩
    have hu0mem : u0 ∈ g.vertices := List.mem_of_find?_eq_some hfind
    have hp0 := List.find?_some hfind
    have hu0name : u0.name = e.source := of_decide_eq_true hp0
    have hu0task : u0.vtype = VertexType.TASK :=
      (ht e hee u0 hu0mem hu0name v hv het.symm hvt).2 hetd
    have hmem : u0.status ∈ predTaskStatuses g v.name :=
      (mem_predTaskStatuses g v.name u0.status).2 ⟨e, hee, het, u0, hfind, hu0task, rfl⟩
    have hequ : u = u0 := name_inj g hn u humem u0 hu0mem (huname.trans hu0name.symm)
    rw [hequ]
    exact hall u0.status hmem
  · intro hspec s hs
    rcases (mem_predTaskStatuses g v.name s).1 hs with ⟨e, hee, het, u, hfind, hu, hus⟩
    have humem : u ∈ g.vertices := List.mem_of_find?_eq_some hfind
    have hp := List.find?_some hfind
    have huname : u.name = e.source := of_decide_eq_true hp
    have hetd : e.type = EdgeType.TASK_DEPENDENCY :=
      (ht e hee u humem huname v hv het.symm hvt).1 hu
    rw [← hus]
    exact hspec e hee hetd het u humem huname

/-- Under well-formedness, the code's promotion test coincides with the spec's
transition rule. -/
theorem readyCheck_iff_spec (g : Graph) (hn : wfNames g) (he : wfEndpoints g)
    (ht : wfTaskTyping g) (v : Vertex) (hv : v ∈ g.vertices) :
    readyCheck g v = true ↔
      (v.vtype = VertexType.TASK ∧ v.status = none ∧ specAllDepsDone g v) := by
  unfold readyCheck specAllDepsDone
  simp only [Bool.and_eq_true, decide_eq_true_eq, Bool.not_eq_true', List.isEmpty_eq_false,
    List.all_eq_true, ne_eq]
  constructor
  · rintro ⟨⟨hvt, hst⟩, hne, hall⟩
    refine ⟨hvt, hst, ?_, ?_⟩
    · exact (predTaskStatuses_nonempty_iff g hn he ht v hv hvt).1 hne
    · exact (predTaskStatuses_all_iff g hn he ht v hv hvt).1 hall
  · rintro ⟨hvt, hst, hex, hall⟩
    refine ⟨⟨hvt, hst⟩, ?_, ?_⟩
    · exact (predTaskStatuses_nonempty_iff g hn he ht v hv hvt).2 hex
    · exact (predTaskStatuses_all_iff g hn he ht v hv hvt).2 hall

theorem lookupD_mkDict {α : Type} (ps : List (String × α)) (k : String) :
    lookupD (mkDict ps) k = lastVal ps k := by
  rw [mkDict, lookupD_updateAll]
  cases lastVal ps k <;> simp [lookupD]

theorem lookupD_of_nodup_mem {α : Type} :
    ∀ (l : List (String × α)) (k : String) (v : α),
      (keysD l).Nodup → (k, v) ∈ l → lookupD l k = some v := by
  intro l
  induction l with
  | nil => intro k v _ h; simp at h
  | cons kv rest ih =>
    intro k v hnd hmem
    have h2 : (kv.1 :: keysD rest).Nodup := hnd
    rcases List.mem_cons.1 hmem with heq | hmem2
    · rw [← heq]
      simp [lookupD]
    · have hk : k ∈ keysD rest := by
        have := List.mem_map_of_mem Prod.fst hmem2
        exact this
      have hne : ¬kv.1 = k := fun hh => (List.nodup_cons.1 h2).1 (hh ▸ hk)
      simp only [lookupD, if_neg hne]
      exact ih k v (List.nodup_cons.1 h2).2 hmem2

theorem lastVal_of_nodup_mem {α : Type} (ps : List (String × α)) (k : String) (v : α)
    (hnd : (keysD ps).Nodup) (hm : (k, v) ∈ ps) : lastVal ps k = some v := by
  unfold lastVal
  apply lookupD_of_nodup_mem
  · show (ps.reverse.map Prod.fst).Nodup
    rw [List.map_reverse]
    exact List.nodup_reverse.2 hnd
  · exact List.mem_reverse.2 hm

/-- With distinct template ids, the id mapping sends every template task's id
to that task's own concrete id. -/
theorem lookupD_buildIdMapping (tmpl : List TemplateTask) (s p : String)
    (hnd : (tmpl.map TemplateTask.id_task).Nodup) (tt : TemplateTask) (htt : tt ∈ tmpl) :
    lookupD (buildIdMapping tmpl s p) tt.id_task = some (concreteId s p tt) := by
  rw [buildIdMapping_eq, lookupD_mkDict]
  apply lastVal_of_nodup_mem
  · show ((tmpl.map _).map Prod.fst).Nodup
    rw [List.map_map]
    exact hnd
  · exact List.mem_map_of_mem _ htt

/-- Positional characterisation of a successful template expansion. -/
theorem fillAll_ok_get (products : List (String × ProductRec)) (s p : String)
    (m : List (String × String)) :
    ∀ (l : List TemplateTask) (r : List Task), fillAll products s p m l = Except.ok r →
      r.length = l.length ∧
      ∀ i (h : i < l.length) (h' : i < r.length),
        fillOne products s p m (l.get ⟨i, h⟩) = Except.ok (r.get ⟨i, h'⟩) := by
  intro l
  induction l with
  | nil =>
    intro r h
    unfold fillAll at h
    injection h with h
    subst h
    exact ⟨rfl, fun i hi _ => absurd hi (by simp)⟩
  | cons t0 rest ih =>
    intro r h
    unfold fillAll at h
    cases h0 : fillOne products s p m t0 with
    | error e => rw [h0] at h; cases h
    | ok tk0 =>
      rw [h0] at h
      cases hrest : fillAll products s p m rest with
      | error e => rw [hrest] at h; cases h
      | ok tks =>
        rw [hrest] at h
        injection h with h
        subst h
        rcases ih tks hrest with ⟨hlen, hget⟩
        refine ⟨by simp [hlen], ?_⟩
        intro i hi hi'
        cases i with
        | zero => exact h0
        | succ n =>
          exact hget n (Nat.lt_of_succ_lt_succ (by simpa using hi))
            (Nat.lt_of_succ_lt_succ (by simpa using hi'))

/-- Dependency rewriting only looks the dependencies up, so mappings that
agree on them rewrite identically. -/
theorem mapDeps_congr (m1 m2 : List (String × String)) :
    ∀ ds : List String, (∀ d ∈ ds, lookupD m1 d = lookupD m2 d) →
      mapDeps m1 ds = mapDeps m2 ds := by
  intro ds
  induction ds with
  | nil => intro _; rfl
  | cons d rest ih =>
    intro hcong
    unfold mapDeps
    rw [hcong d (List.mem_cons_self d rest),
      ih (fun x hx => hcong x (List.mem_cons_of_mem d hx))]

/-- A key resolvable in a built dictionary was contributed by some pair. -/
theorem lookupD_mkDict_exists {α : Type} (ps : List (String × α)) (k : String) (v : α)
    (h : lookupD (mkDict ps) k = some v) : ∃ q ∈ ps, q.1 = k := by
  have hk : hasKey (mkDict ps) k = true := by
    rw [hasKey_iff]
    by_contra hc
    rw [← lookupD_eq_none_iff] at hc
    rw [hc] at h
    cases h
  rcases hasKey_updateAll_cases ps [] k hk with hbase | hex
  · simp [hasKey] at hbase
  · exact hex

/-- Counterexample to C1 as stated: with the template of `stC1` (SOURCE task
`C` depends on PRODUCT task `B`), the SOURCE-subtype task `S_C` instantiated
for the pairings (S, P1) and (S, P2) gets the same id but different
`depends_on` attributes, so it is not "a single entity with the same id and
the same attributes"; after ingesting both pairings the registry keeps only
the last expansion. -/
theorem C1_counterexample :
    _fill_task_template stC1 "S" "P1" = Except.ok
      [Task.mk "S_A" "SOURCE" "extract" [] "" "S" none,
       Task.mk "P1_B" "PRODUCT" "build" ["S_A"] "Product One" "P1" none,
       Task.mk "S_C" "SOURCE" "verify" ["P1_B"] "" "S" none] ∧
    _fill_task_template stC1 "S" "P2" = Except.ok
      [Task.mk "S_A" "SOURCE" "extract" [] "" "S" none,
       Task.mk "P2_B" "PRODUCT" "build" ["S_A"] "Product Two" "P2" none,
       Task.mk "S_C" "SOURCE" "verify" ["P2_B"] "" "S" none] ∧
    Task.mk "S_C" "SOURCE" "verify" ["P1_B"] "" "S" none ≠
      Task.mk "S_C" "SOURCE" "verify" ["P2_B"] "" "S" none ∧
    (add_product_sources (initTree tmplC1)
        [PSRecord.mk "S" "P1" "Product One" none,
         PSRecord.mk "S" "P2" "Product Two" none]).map
      (fun st => (lookupD st.tasks "S_C").map Task.depends_on) =
        Except.ok (some ["P2_B"]) :=
  ⟨rfl, rfl, by decide, rfl⟩

/-- C1 (amended): for a template with distinct task ids, every instantiated
concrete task id equals prefix + "_" + templateTaskId with the prefix chosen
by the task's own subtype; when one source feeds two different products, the
SOURCE-subtype tasks of the two pairings coincide — in id always, and in all
attributes provided every dependency of a SOURCE-subtype template task is
itself a SOURCE-subtype template task — while PRODUCT-subtype tasks of the
two pairings are distinct entities.  (Without the proviso a SOURCE task
depending on a PRODUCT task gets per-product `depends_on` values and the
registry keeps only the last instantiation, as the counterexample shows.) -/
theorem C1_amended_deterministic_ids :
    ∀ (t : PlanningTree) (s p1 p2 : String) (l1 l2 : List Task),
      (t.template_tasks.map TemplateTask.id_task).Nodup →
      (∀ tt ∈ t.template_tasks, tt.type_task = "SOURCE" →
        ∀ d ∈ tt.depends_on, ∀ tt2 ∈ t.template_tasks, tt2.id_task = d →
          tt2.type_task = "SOURCE") →
      _fill_task_template t s p1 = Except.ok l1 →
      _fill_task_template t s p2 = Except.ok l2 →
      l1.length = t.template_tasks.length ∧ l2.length = t.template_tasks.length ∧
      (∀ i (h : i < t.template_tasks.length) (h1 : i < l1.length),
        (l1.get ⟨i, h1⟩).id_task = concreteId s p1 (t.template_tasks.get ⟨i, h⟩)) ∧
      (∀ i (h : i < t.template_tasks.length) (h1 : i < l1.length) (h2 : i < l2.length),
        (t.template_tasks.get ⟨i, h⟩).type_task = "SOURCE" →
          l1.get ⟨i, h1⟩ = l2.get ⟨i, h2⟩) ∧
      (∀ i (h : i < t.template_tasks.length) (h1 : i < l1.length) (h2 : i < l2.length),
        (t.template_tasks.get ⟨i, h⟩).type_task = "PRODUCT" → p1 ≠ p2 →
          (l1.get ⟨i, h1⟩).id_task ≠ (l2.get ⟨i, h2⟩).id_task) := by
  intro t s p1 p2 l1 l2 hnd hsrc hf1 hf2
  unfold _fill_task_template at hf1 hf2
  obtain ⟨hlen1, hget1⟩ := fillAll_ok_get t.products s p1 _ t.template_tasks l1 hf1
  obtain ⟨hlen2, hget2⟩ := fillAll_ok_get t.products s p2 _ t.template_tasks l2 hf2
  have hid_formula : ∀ (pp : String) (ll : List Task)
      (hget : ∀ i (h : i < t.template_tasks.length) (h' : i < ll.length),
        fillOne t.products s pp (buildIdMapping t.template_tasks s pp)
          (t.template_tasks.get ⟨i, h⟩) = Except.ok (ll.get ⟨i, h'⟩)),
      ∀ i (h : i < t.template_tasks.length) (h1 : i < ll.length),
        (ll.get ⟨i, h1⟩).id_task = concreteId s pp (t.template_tasks.get ⟨i, h⟩) := by
    intro pp ll hget i h h1
    rcases fillOne_ok_inv _ _ _ _ _ _ (hget i h h1) with
      ⟨nid, related, ds, hid, hdeps, htk, _, _⟩
    rw [htk]
    have hb := lookupD_buildIdMapping t.template_tasks s pp hnd
      (t.template_tasks.get ⟨i, h⟩) (List.get_mem _ i h)
    rw [hb] at hid
    injection hid with hid
    exact hid.symm
  refine ⟨hlen1, hlen2, hid_formula p1 l1 hget1, ?_, ?_⟩
  · intro i h h1 h2 hsrct
    rcases fillOne_ok_inv _ _ _ _ _ _ (hget1 i h h1) with
      ⟨nid1, rel1, ds1, hid1, hdeps1, htk1, _, hnp1⟩
    rcases fillOne_ok_inv _ _ _ _ _ _ (hget2 i h h2) with
      ⟨nid2, rel2, ds2, hid2, hdeps2, htk2, _, hnp2⟩
    have httmem := List.get_mem t.template_tasks i h
    have hb1 := lookupD_buildIdMapping t.template_tasks s p1 hnd _ httmem
    have hb2 := lookupD_buildIdMapping t.template_tasks s p2 hnd _ httmem
    rw [hb1] at hid1
    rw [hb2] at hid2
    injection hid1 with hid1
    injection hid2 with hid2
    have hcid : concreteId s p1 (t.template_tasks.get ⟨i, h⟩) =
        concreteId s p2 (t.template_tasks.get ⟨i, h⟩) := by
      unfold concreteId
      rw [if_pos hsrct, if_pos hsrct]
    have hagree : ∀ d ∈ (t.template_tasks.get ⟨i, h⟩).depends_on,
        lookupD (buildIdMapping t.template_tasks s p1) d =
          lookupD (buildIdMapping t.template_tasks s p2) d := by
      intro d hd
      rcases mapDeps_ok_mem _ _ ds1 hdeps1 d hd with ⟨v, hv⟩
      have hv' : lookupD (mkDict (t.template_tasks.map
          (fun tt => (tt.id_task, concreteId s p1 tt)))) d = some v := by
        rw [← buildIdMapping_eq]
        exact hv
      rcases lookupD_mkDict_exists _ d v hv' with ⟨q, hq, hqk⟩
      rcases List.mem_map.1 hq with ⟨tt2, htt2, rfl⟩
      have htt2src : tt2.type_task = "SOURCE" :=
        hsrc _ httmem hsrct d hd tt2 htt2 hqk
      have e1 : lookupD (buildIdMapping t.template_tasks s p1) d =
          some (concreteId s p1 tt2) := by
        rw [← hqk]
        exact lookupD_buildIdMapping t.template_tasks s p1 hnd tt2 htt2
      have e2 : lookupD (buildIdMapping t.template_tasks s p2) d =
          some (concreteId s p2 tt2) := by
        rw [← hqk]
        exact lookupD_buildIdMapping t.template_tasks s p2 hnd tt2 htt2
      rw [e1, e2]
      have : concreteId s p1 tt2 = concreteId s p2 tt2 := by
        unfold concreteId
        rw [if_pos htt2src, if_pos htt2src]
      rw [this]
    have hdeq := mapDeps_congr _ _ (t.template_tasks.get ⟨i, h⟩).depends_on hagree
    rw [hdeps1, hdeps2] at hdeq
    injection hdeq with hdeq
    have hnp : (t.template_tasks.get ⟨i, h⟩).type_task ≠ "PRODUCT" := by
      rw [hsrct]
      decide
    rw [htk1, htk2, hnp1 hnp, hnp2 hnp, hdeq, ← hid1, ← hid2, hcid,
      if_pos hsrct, if_pos hsrct]
  · intro i h h1 h2 hprodt hpne hcon
    apply hpne
    rw [hid_formula p1 l1 hget1 i h h1, hid_formula p2 l2 hget2 i h h2] at hcon
    unfold concreteId at hcon
    have hns : ¬(t.template_tasks.get ⟨i, h⟩).type_task = "SOURCE" := by
      rw [hprodt]
      decide
    rw [if_neg hns, if_neg hns] at hcon
    have hdata := congrArg String.data hcon
    simp only [String.data_append] at hdata
    exact String.ext (List.append_cancel_right (List.append_cancel_right hdata))

/-- Witness for the amended C1: on the two-task template, instantiating for
products P1 and P2 shares the SOURCE task as one value and gives the PRODUCT
tasks distinct ids. -/
theorem C1_amended_witness :
    (tmplAB.map TemplateTask.id_task).Nodup ∧
    fillABP1.get ⟨0, by decide⟩ = fillABP2.get ⟨0, by decide⟩ ∧
    (fillABP1.get ⟨1, by decide⟩).id_task ≠ (fillABP2.get ⟨1, by decide⟩).id_task :=
  ⟨by decide,
    (C1_amended_deterministic_ids stAB2 "S" "P1" "P2" fillABP1 fillABP2
      (by decide) (by decide) rfl rfl).2.2.2.1 0 (by decide) (by decide) (by decide)
      (by decide),
    (C1_amended_deterministic_ids stAB2 "S" "P1" "P2" fillABP1 fillABP2
      (by decide) (by decide) rfl rfl).2.2.2.2 1 (by decide) (by decide) (by decide)
      (by decide) (by decide)⟩

/-- C3: on every well-formed graph one readiness pass rewrites the vertex list
exactly as the spec's transition rule prescribes — precisely the TASK vertices
with unset status and a non-empty, all-"done" set of direct TASK_DEPENDENCY
task predecessors become "ready", and nothing else changes — and the pass is
single-shot, not a fixpoint: in the chain A → B → C with only A "done", one
pass promotes B and leaves C unset, and a second pass after B is externally
marked "done" promotes C. -/
theorem C3_readiness_single_pass :
    (∀ g : Graph, wfNames g → wfEndpoints g → wfTaskTyping g →
      set_tasks_ready g = Graph.mk (specReadyVerts g) g.edges) ∧
    statusOf (set_tasks_ready chainG) "A" = some (some "done") ∧
    statusOf (set_tasks_ready chainG) "B" = some (some "ready") ∧
    statusOf (set_tasks_ready chainG) "C" = some none ∧
    statusOf (set_tasks_ready (statusWrite (set_tasks_ready chainG) "B" (some "done"))) "C" =
      some (some "ready") := by
  refine ⟨fun g hn he ht => ?_, by decide, by decide, by decide, by decide⟩
  show Graph.mk (g.vertices.map _) g.edges = Graph.mk (specReadyVerts g) g.edges
  congr 1
  unfold specReadyVerts
  apply List.map_congr_left
  intro v hv
  by_cases hrc : readyCheck g v = true
  · rw [if_pos hrc, if_pos ((readyCheck_iff_spec g hn he ht v hv).1 hrc)]
  · rw [if_neg hrc, if_neg (fun hspec => hrc ((readyCheck_iff_spec g hn he ht v hv).2 hspec))]

/-- Witness for C3: the chain graph is well-formed and its readiness pass is
exactly the spec rule's rewrite. -/
theorem C3_readiness_single_pass_witness :
    wfNames chainG ∧ wfEndpoints chainG ∧ wfTaskTyping chainG ∧
    set_tasks_ready chainG = Graph.mk (specReadyVerts chainG) chainG.edges :=
  ⟨by decide, by decide, by decide,
    C3_readiness_single_pass.1 chainG (by decide) (by decide) (by decide)⟩

/-- Counterexample to C9 as stated: in the freshly ingested tree no task has a
status key, so `pl.from_dicts` materialises no status column at all and the
exported rows carry no "waiting" default — the claim demands "waiting" in the
status column of both rows. -/
theorem C9_counterexample :
    (lookupD stC5.tasks "SYS1_A").map Task.status = some none ∧
    (get_tasks stC5).hasStatusColumn = false ∧
    (get_tasks stC5).rows.map TaskRow.status = [none, none] :=
  ⟨rfl, rfl, rfl⟩

/-- C9 (amended): the exported table always has one row per task registry
entry; a status column exists exactly when some task has a status key; when
the column exists, a task with an absent or null status shows "waiting" (and a
stored string shows as-is), but when no external status has been applied to
any task there is no status column and no row carries "waiting". -/
theorem C9_amended_waiting_default (t : PlanningTree) :
    (get_tasks t).rows.length = t.tasks.length ∧
    ((get_tasks t).hasStatusColumn = true ↔ ∃ kv ∈ t.tasks, kv.2.status.isSome = true) ∧
    ∀ i (h : i < t.tasks.length) (h' : i < (get_tasks t).rows.length),
      ((t.tasks.get ⟨i, h⟩).2.status.join = none →
        ((get_tasks t).rows.get ⟨i, h'⟩).status =
          (if (get_tasks t).hasStatusColumn then some "waiting" else none)) ∧
      (∀ s : String, (t.tasks.get ⟨i, h⟩).2.status = some (some s) →
        ((get_tasks t).rows.get ⟨i, h'⟩).status = some s) := by
  refine ⟨by simp [get_tasks], ?_, ?_⟩
  · show (t.tasks.any fun kv => kv.2.status.isSome) = true ↔ _
    rw [List.any_eq_true]
  · intro i h h'
    have hrow : (get_tasks t).rows.get ⟨i, h'⟩ =
        taskRow (t.tasks.any fun kv => kv.2.status.isSome) (t.tasks.get ⟨i, h⟩).2 := by
      show (t.tasks.map _).get _ = _
      simp [List.get_eq_getElem, List.getElem_map]
    constructor
    · intro hjoin
      rw [hrow]
      show (if (t.tasks.any fun kv => kv.2.status.isSome) = true then
          some (((t.tasks.get ⟨i, h⟩).2.status.join).getD "waiting") else none) =
        (if (t.tasks.any fun kv => kv.2.status.isSome) = true then some "waiting" else none)
      rw [hjoin]
      simp only [Option.getD_none]
    · intro s hst
      have hcol : (t.tasks.any fun kv => kv.2.status.isSome) = true := by
        rw [List.any_eq_true]
        exact ⟨_, List.get_mem t.tasks i h, by rw [hst]; rfl⟩
      rw [hrow]
      show (if (t.tasks.any fun kv => kv.2.status.isSome) = true then
          some (((t.tasks.get ⟨i, h⟩).2.status.join).getD "waiting") else none) = some s
      rw [if_pos hcol, hst]
      rfl

/-- Witness for the amended C9 at the concrete ingested tree and its first
task (absent status, no status column, hence no "waiting" value). -/
theorem C9_amended_witness :
    (stC5.tasks.get ⟨0, by decide⟩).2.status.join = none ∧
    ((get_tasks stC5).rows.get ⟨0, by decide⟩).status =
      (if (get_tasks stC5).hasStatusColumn then some "waiting" else none) :=
  ⟨by decide, (((C9_amended_waiting_default stC5).2.2 0 (by decide) (by decide)).1 (by decide))⟩

/-- C10: one readiness pass only rewrites statuses on the graph snapshot it is
given — every vertex keeps its name, kind and task subtype, and a status
either is preserved or moves from unset to "ready" — while the task table
exported from the registry never contains a "ready" status unless one was
stored there by an external status update: promotions live only on the
snapshot (`ig.Graph.DictList` copies attribute values, so the Python mutation
cannot reach the registry dictionaries; the embedding reflects that by
making `set_tasks_ready` a function of the snapshot alone). -/
theorem C10_readiness_frame :
    (∀ g : Graph,
      (set_tasks_ready g).vertices.length = g.vertices.length ∧
      (set_tasks_ready g).edges = g.edges ∧
      ∀ i (h : i < g.vertices.length) (h' : i < (set_tasks_ready g).vertices.length),
        ((set_tasks_ready g).vertices.get ⟨i, h'⟩).name = (g.vertices.get ⟨i, h⟩).name ∧
        ((set_tasks_ready g).vertices.get ⟨i, h'⟩).vtype = (g.vertices.get ⟨i, h⟩).vtype ∧
        ((set_tasks_ready g).vertices.get ⟨i, h'⟩).type_task =
          (g.vertices.get ⟨i, h⟩).type_task ∧
        (((set_tasks_ready g).vertices.get ⟨i, h'⟩).status = (g.vertices.get ⟨i, h⟩).status ∨
          ((g.vertices.get ⟨i, h⟩).status = none ∧
            ((set_tasks_ready g).vertices.get ⟨i, h'⟩).status = some "ready"))) ∧
    (∀ t : PlanningTree, (∀ kv ∈ t.tasks, kv.2.status ≠ some (some "ready")) →
      ∀ r ∈ (get_tasks t).rows, r.status ≠ some "ready") := by
  constructor
  · intro g
    refine ⟨by simp [set_tasks_ready], rfl, ?_⟩
    intro i h h'
    have hv : (set_tasks_ready g).vertices.get ⟨i, h'⟩ =
        (if readyCheck g (g.vertices.get ⟨i, h⟩) then
          { g.vertices.get ⟨i, h⟩ with status := some "ready" }
        else g.vertices.get ⟨i, h⟩) := by
      show (g.vertices.map _).get _ = _
      simp [List.get_eq_getElem, List.getElem_map]
    by_cases hrc : readyCheck g (g.vertices.get ⟨i, h⟩) = true
    · rw [hv, if_pos hrc]
      refine ⟨rfl, rfl, rfl, Or.inr ⟨?_, rfl⟩⟩
      unfold readyCheck at hrc
      simp only [Bool.and_eq_true, decide_eq_true_eq] at hrc
      exact hrc.1.2
    · rw [hv, if_neg hrc]
      exact ⟨rfl, rfl, rfl, Or.inl rfl⟩
  · intro t hno r hr hcon
    have hr2 : r ∈ t.tasks.map (fun kv =>
        taskRow (t.tasks.any fun kv => kv.2.status.isSome) kv.2) := hr
    rcases List.mem_map.1 hr2 with ⟨kv, hkv, rfl⟩
    unfold taskRow at hcon
    simp only at hcon
    by_cases hcol : (t.tasks.any fun kv => kv.2.status.isSome) = true
    · rw [if_pos hcol] at hcon
      injection hcon with hcon
      cases hj : kv.2.status.join with
      | none =>
        rw [hj] at hcon
        exact absurd hcon (by decide)
      | some s =>
        rw [hj] at hcon
        have hs : s = "ready" := hcon
        have hstored : kv.2.status = some (some "ready") := by
          rw [← hs]
          exact Option.join_eq_some.1 hj
        exact hno kv hkv hstored
    · rw [if_neg hcol] at hcon
      cases hcon

/-- Witness for C10: the promoted chain snapshot keeps vertex `B`'s identity,
and the concrete exported row of the status-free registry is not "ready". -/
theorem C10_readiness_frame_witness :
    ((set_tasks_ready chainG).vertices.get ⟨1, by decide⟩).name =
      (chainG.vertices.get ⟨1, by decide⟩).name ∧
    (TaskRow.mk "SYS1_A" "SOURCE" "extract" [] "" "SYS1" none).status ≠ some "ready" :=
  ⟨((C10_readiness_frame.1 chainG).2.2 1 (by decide) (by decide)).1,
    C10_readiness_frame.2 stC5 (by decide)
      (TaskRow.mk "SYS1_A" "SOURCE" "extract" [] "" "SYS1" none) (by decide)⟩

/-- C5: for the two-task template (`A` SOURCE, `B` PRODUCT depending on `A`),
ingesting the single pairing "SYS1" → "P1" produces exactly the task ids
`SYS1_A` and `P1_B`, a TASK_DEPENDENCY edge from `SYS1_A` to `P1_B`, and the
ancestors-of query for "P1" returns the subgraph on exactly the vertex set
containing SYS1, P1, SYS1_A and P1_B. -/
theorem C5_reachability :
    add_product_sources (initTree tmplAB) [recSYS1P1] = Except.ok stC5 ∧
    stC5.tasks.map Prod.fst = ["SYS1_A", "P1_B"] ∧
    Edge.mk "SYS1_A" "P1_B" EdgeType.TASK_DEPENDENCY ∈ stC5.edges ∧
    (get_product_tasks stC5 "P1").map (fun g => g.vertices.map Vertex.name) =
      Except.ok ["SYS1", "P1", "SYS1_A", "P1_B"] :=
  ⟨rfl, rfl, by decide, rfl⟩

/-! ### Pairing-loop lemmas for C4 -/

theorem applyPairing_products (t : PlanningTree) (s p : String) (l : List Task) :
    (applyPairing t s p l).products = t.products := rfl

theorem applyPairing_sources (t : PlanningTree) (s p : String) (l : List Task) :
    (applyPairing t s p l).sources = t.sources := rfl

theorem applyPairing_template (t : PlanningTree) (s p : String) (l : List Task) :
    (applyPairing t s p l).template_tasks = t.template_tasks := rfl

theorem applyPairing_tasks (t : PlanningTree) (s p : String) (l : List Task) :
    (applyPairing t s p l).tasks = updateAll t.tasks (l.map (fun tk => (tk.id_task, tk))) :=
  rfl

theorem applyPairing_edges_eq (t : PlanningTree) (s p : String) (l : List Task) :
    (applyPairing t s p l).edges =
      pyDedup (pyDedup (pyDedup (t.edges ++ sourceTaskEdges s l) ++ productTaskEdges p l)
        ++ _extract_dependencies l) := rfl

theorem applyPairing_edges_mono (t : PlanningTree) (s p : String) (l : List Task)
    (x : Edge) (hx : x ∈ t.edges) : x ∈ (applyPairing t s p l).edges := by
  rw [applyPairing_edges_eq]
  exact (mem_pyDedup _ _).2 (List.mem_append_left _ ((mem_pyDedup _ _).2
    (List.mem_append_left _ ((mem_pyDedup _ _).2 (List.mem_append_left _ hx)))))

theorem applyPairing_edges_proposed (t : PlanningTree) (s p : String) (l : List Task)
    (x : Edge) (hx : x ∈ pairingEdges (Edge.mk s p EdgeType.SOURCE_PRODUCT) l) :
    x ∈ (applyPairing t s p l).edges := by
  rw [applyPairing_edges_eq]
  rcases List.mem_append.1 hx with hx2 | hdep
  · rcases List.mem_append.1 hx2 with hst | hpt
    · exact (mem_pyDedup _ _).2 (List.mem_append_left _ ((mem_pyDedup _ _).2
        (List.mem_append_left _ ((mem_pyDedup _ _).2 (List.mem_append_right _ hst)))))
    · exact (mem_pyDedup _ _).2 (List.mem_append_left _ ((mem_pyDedup _ _).2
        (List.mem_append_right _ hpt)))
  · exact (mem_pyDedup _ _).2 (List.mem_append_right _ hdep)

theorem applyPairing_edges_nodup (t : PlanningTree) (s p : String) (l : List Task) :
    ((applyPairing t s p l).edges).Nodup := by
  rw [applyPairing_edges_eq]
  exact pyDedup_nodup _

theorem applyPairing_edges_noop (t : PlanningTree) (s p : String) (l : List Task)
    (hnd : t.edges.Nodup)
    (hsub : ∀ x ∈ pairingEdges (Edge.mk s p EdgeType.SOURCE_PRODUCT) l, x ∈ t.edges) :
    (applyPairing t s p l).edges = t.edges := by
  rw [applyPairing_edges_eq]
  have hst : ∀ x ∈ sourceTaskEdges s l, x ∈ t.edges := fun x hx =>
    hsub x (List.mem_append_left _ (List.mem_append_left _ hx))
  have hpt : ∀ x ∈ productTaskEdges p l, x ∈ t.edges := fun x hx =>
    hsub x (List.mem_append_left _ (List.mem_append_right _ hx))
  have hdep : ∀ x ∈ _extract_dependencies l, x ∈ t.edges := fun x hx =>
    hsub x (List.mem_append_right _ hx)
  rw [pyDedup_append_of_subset _ _ hst, pyDedup_eq_self _ hnd,
    pyDedup_append_of_subset _ _ hpt, pyDedup_eq_self _ hnd,
    pyDedup_append_of_subset _ _ hdep, pyDedup_eq_self _ hnd]

theorem applyBatches_products (zs : List (Edge × List Task)) :
    ∀ t : PlanningTree, (applyBatches t zs).products = t.products := by
  induction zs with
  | nil => intro t; rfl
  | cons z rest ih =>
    intro t
    obtain ⟨e, l⟩ := z
    exact (ih (applyPairing t e.source e.target l)).trans rfl

theorem applyBatches_sources (zs : List (Edge × List Task)) :
    ∀ t : PlanningTree, (applyBatches t zs).sources = t.sources := by
  induction zs with
  | nil => intro t; rfl
  | cons z rest ih =>
    intro t
    obtain ⟨e, l⟩ := z
    exact (ih (applyPairing t e.source e.target l)).trans rfl

theorem applyBatches_template (zs : List (Edge × List Task)) :
    ∀ t : PlanningTree, (applyBatches t zs).template_tasks = t.template_tasks := by
  induction zs with
  | nil => intro t; rfl
  | cons z rest ih =>
    intro t
    obtain ⟨e, l⟩ := z
    exact (ih (applyPairing t e.source e.target l)).trans rfl

theorem applyBatches_tasks (zs : List (Edge × List Task)) :
    ∀ t : PlanningTree, (applyBatches t zs).tasks =
      updateAll t.tasks
        ((zs.map (fun z => z.2.map (fun tk => (tk.id_task, tk)))).flatten) := by
  induction zs with
  | nil => intro t; rfl
  | cons z rest ih =>
    intro t
    obtain ⟨e, l⟩ := z
    show (applyBatches (applyPairing t e.source e.target l) rest).tasks = _
    rw [ih (applyPairing t e.source e.target l), applyPairing_tasks,
      ← updateAll_append]
    rfl

theorem applyBatches_edges_mono (zs : List (Edge × List Task)) :
    ∀ (t : PlanningTree) (x : Edge), x ∈ t.edges → x ∈ (applyBatches t zs).edges := by
  induction zs with
  | nil => intro t x hx; exact hx
  | cons z rest ih =>
    intro t x hx
    obtain ⟨e, l⟩ := z
    exact ih (applyPairing t e.source e.target l) x
      (applyPairing_edges_mono t e.source e.target l x hx)

theorem applyBatches_edges_nodup (zs : List (Edge × List Task)) :
    ∀ t : PlanningTree, t.edges.Nodup → ((applyBatches t zs).edges).Nodup := by
  induction zs with
  | nil => intro t h; exact h
  | cons z rest ih =>
    intro t _
    obtain ⟨e, l⟩ := z
    exact ih (applyPairing t e.source e.target l)
      (applyPairing_edges_nodup t e.source e.target l)

theorem applyBatches_edges_proposed (zs : List (Edge × List Task)) :
    ∀ (t : PlanningTree) (z : Edge × List Task), z ∈ zs →
      ∀ x ∈ pairingEdges (Edge.mk z.1.source z.1.target EdgeType.SOURCE_PRODUCT) z.2,
        x ∈ (applyBatches t zs).edges := by
  induction zs with
  | nil => intro t z hz; simp at hz
  | cons z0 rest ih =>
    intro t z hz x hx
    obtain ⟨e, l⟩ := z0
    rcases List.mem_cons.1 hz with rfl | hmem
    · exact applyBatches_edges_mono rest _ x
        (applyPairing_edges_proposed t e.source e.target l x hx)
    · exact ih (applyPairing t e.source e.target l) z hmem x hx

theorem applyBatches_edges_noop (zs : List (Edge × List Task)) :
    ∀ t : PlanningTree, t.edges.Nodup →
      (∀ z ∈ zs, ∀ x ∈ pairingEdges (Edge.mk z.1.source z.1.target EdgeType.SOURCE_PRODUCT) z.2,
        x ∈ t.edges) →
      (applyBatches t zs).edges = t.edges := by
  induction zs with
  | nil => intro t _ _; rfl
  | cons z0 rest ih =>
    intro t hnd hsub
    obtain ⟨e, l⟩ := z0
    have hstep : (applyPairing t e.source e.target l).edges = t.edges :=
      applyPairing_edges_noop t e.source e.target l hnd
        (fun x hx => hsub (e, l) (List.mem_cons_self _ _) x hx)
    show (applyBatches (applyPairing t e.source e.target l) rest).edges = t.edges
    rw [ih (applyPairing t e.source e.target l) (by rw [hstep]; exact hnd)
      (fun z hz x hx => by
        rw [hstep]
        exact hsub z (List.mem_cons_of_mem _ hz) x hx), hstep]

theorem pairingStep_eq (t : PlanningTree) (e : Edge) :
    pairingStep t e =
      (match fillP t.products t.template_tasks e.source e.target with
        | Except.error err => Except.error err
        | Except.ok tasks => Except.ok (applyPairing t e.source e.target tasks)) := rfl

/-- A successful pairing loop is the pure application of per-pairing batches,
each expanded from the loop-invariant product registry and template. -/
theorem pairingLoop_ok_batches :
    ∀ (ps : List Edge) (u w : PlanningTree), pairingLoop u ps = Except.ok w →
      ∃ bs : List (List Task),
        List.Forall₂ (fun (e : Edge) (l : List Task) =>
          fillP u.products u.template_tasks e.source e.target = Except.ok l) ps bs ∧
        w = applyBatches u (ps.zip bs) := by
  intro ps
  induction ps with
  | nil =>
    intro u w h
    unfold pairingLoop at h
    injection h with h
    exact ⟨[], List.Forall₂.nil, h.symm⟩
  | cons e rest ih =>
    intro u w h
    unfold pairingLoop at h
    cases hstep : pairingStep u e with
    | error err => rw [hstep] at h; cases h
    | ok u' =>
      rw [hstep] at h
      rw [pairingStep_eq] at hstep
      cases hfill : fillP u.products u.template_tasks e.source e.target with
      | error err => rw [hfill] at hstep; cases hstep
      | ok l0 =>
        rw [hfill] at hstep
        injection hstep with hstep
        rcases ih u' w h with ⟨bs, hall, hw⟩
        have hp : u'.products = u.products := by rw [← hstep]; rfl
        have ht : u'.template_tasks = u.template_tasks := by rw [← hstep]; rfl
        rw [hp, ht] at hall
        refine ⟨l0 :: bs, List.Forall₂.cons hfill hall, ?_⟩
        rw [hw]
        show applyBatches u' (rest.zip bs) =
          applyBatches (applyPairing u e.source e.target l0) (rest.zip bs)
        rw [hstep]

/-- Conversely, batches expanded from a fixed product registry and template
drive the loop to their pure application. -/
theorem pairingLoop_of_batches (P : List (String × ProductRec)) (T : List TemplateTask) :
    ∀ {ps : List Edge} {bs : List (List Task)},
      List.Forall₂ (fun (e : Edge) (l : List Task) =>
        fillP P T e.source e.target = Except.ok l) ps bs →
      ∀ u : PlanningTree, u.products = P → u.template_tasks = T →
      pairingLoop u ps = Except.ok (applyBatches u (ps.zip bs)) := by
  intro ps bs hall
  induction hall with
  | nil => intro u _ _; rfl
  | @cons e l es ls hfill hrest ih =>
    intro u hP hT
    show (match pairingStep u e with
      | Except.error err => Except.error err
      | Except.ok t' => pairingLoop t' es) = _
    rw [pairingStep_eq, hP, hT, hfill]
    exact ih (applyPairing u e.source e.target l) (by rw [← hP]; rfl) (by rw [← hT]; rfl)

theorem updateAll_twice_lookup {α : Type} (F d : List (String × α)) (k : String) :
    lookupD (updateAll (updateAll d F) F) k = lookupD (updateAll d F) k := by
  rw [lookupD_updateAll, lookupD_updateAll]
  cases lastVal F k <;> rfl

theorem updateAll_twice_keys {α : Type} (F d : List (String × α)) :
    keysD (updateAll (updateAll d F) F) = keysD (updateAll d F) := by
  apply keysD_updateAll_of_subset
  intro p hp
  exact hasKey_updateAll_of_mem F d p.1 ⟨p, hp, rfl⟩

/-- Re-applying the very same write sequence to a dictionary is a no-op. -/
theorem updateAll_twice {α : Type} (F d : List (String × α)) (hnd : (keysD d).Nodup) :
    updateAll (updateAll d F) F = updateAll d F := by
  apply assoc_ext
  · exact keysD_nodup_updateAll F (updateAll d F) (keysD_nodup_updateAll F d hnd)
  · exact updateAll_twice_keys F d
  · exact fun k => updateAll_twice_lookup F d k

theorem planningTree_ext (a b : PlanningTree) (h1 : a.sources = b.sources)
    (h2 : a.products = b.products) (h3 : a.tasks = b.tasks) (h4 : a.edges = b.edges)
    (h5 : a.template_tasks = b.template_tasks) : a = b := by
  cases a
  cases b
  simp only [PlanningTree.mk.injEq]
  exact ⟨h1, h2, h3, h4, h5⟩

theorem add_product_sources_eq (t : PlanningTree) (df : List PSRecord) :
    add_product_sources t df =
      pairingLoop (_add_edges (_add_products (_add_sources t df) df)
        (_add_edges_source_product df)) (_add_edges_source_product df) := rfl

/-- C4: re-ingesting the same product-source records is a complete no-op —
the second `add_product_sources` call returns the very same state, so all
concrete task ids, every task's `depends_on` list and the whole edge
collection are unchanged (the only assumption is the Python-dict invariant
that the task registry keys are unique). -/
theorem C4_idempotent_ingestion :
    ∀ (t : PlanningTree) (df : List PSRecord) (st1 : PlanningTree),
      (keysD t.tasks).Nodup →
      add_product_sources t df = Except.ok st1 →
      add_product_sources st1 df = Except.ok st1 := by
  intro t df st1 hnd h1
  rw [add_product_sources_eq] at h1 ⊢
  set pairs := _add_edges_source_product df with hpairsdef
  set t3 := _add_edges (_add_products (_add_sources t df) df) pairs with ht3def
  rcases pairingLoop_ok_batches pairs t3 st1 h1 with ⟨bs, hall, hw⟩
  have hpe : st1.products = t3.products := by
    rw [hw]
    exact applyBatches_products _ _
  have hse : st1.sources = t3.sources := by
    rw [hw]
    exact applyBatches_sources _ _
  have hte : st1.template_tasks = t3.template_tasks := by
    rw [hw]
    exact applyBatches_template _ _
  have ht3nd : t3.edges.Nodup := pyDedup_nodup _
  have hednd : st1.edges.Nodup := by
    rw [hw]
    exact applyBatches_edges_nodup _ t3 ht3nd
  have hpairs_sub : ∀ x ∈ pairs, x ∈ st1.edges := by
    intro x hx
    rw [hw]
    exact applyBatches_edges_mono _ t3 x
      ((mem_pyDedup _ _).2 (List.mem_append_right _ hx))
  have h_s : _add_sources st1 df = st1 := by
    apply planningTree_ext
    · exact hse.symm
    · rfl
    · rfl
    · rfl
    · rfl
  have h_p : _add_products st1 df = st1 := by
    apply planningTree_ext
    · rfl
    · exact hpe.symm
    · rfl
    · rfl
    · rfl
  have h_e : _add_edges st1 pairs = st1 := by
    apply planningTree_ext
    · rfl
    · rfl
    · rfl
    · show pyDedup (st1.edges ++ pairs) = st1.edges
      rw [pyDedup_append_of_subset _ _ hpairs_sub, pyDedup_eq_self _ hednd]
    · rfl
  rw [h_s, h_p, h_e]
  rw [pairingLoop_of_batches t3.products t3.template_tasks hall st1 hpe hte]
  have hfix : applyBatches st1 (pairs.zip bs) = st1 := by
    apply planningTree_ext
    · exact applyBatches_sources _ _
    · exact applyBatches_products _ _
    · rw [applyBatches_tasks]
      have htasks1 : st1.tasks =
          updateAll t3.tasks
            (((pairs.zip bs).map (fun z => z.2.map (fun tk => (tk.id_task, tk)))).flatten) := by
        rw [hw]
        exact applyBatches_tasks _ t3
      rw [htasks1, updateAll_twice _ t3.tasks hnd]
    · apply applyBatches_edges_noop _ st1 hednd
      intro z hz x hx
      rw [hw]
      exact applyBatches_edges_proposed _ t3 z hz x hx
    · exact applyBatches_template _ _
  rw [hfix]

/-- Witness for C4 at the concrete single-row ingestion: re-ingesting the same
record into the resulting tree returns that very tree. -/
theorem C4_idempotent_ingestion_witness :
    (keysD (initTree tmplAB).tasks).Nodup ∧
    add_product_sources stC5 [recSYS1P1] = Except.ok stC5 :=
  ⟨by decide, C4_idempotent_ingestion (initTree tmplAB) [recSYS1P1] stC5 (by decide) rfl⟩

end PlanMigration
